import Mathlib

/-!
MapEditor: tile grid, JSON persistence, flood fill and edit commands.

A shallow embedding of the core of the MapEditor sources:

* `CMap` (CMap.h / CMap.cpp): the tile grid, with `tileAt`, `setTile`,
  `resize`, `clear`, `toJson`, `fromJson`;
* `CMainView::collectFillTiles` and `CMainView::paintTile` (CMainView.cpp);
* `SetTileCommand`, `FillCommand` and the two signal handlers that push
  them on the undo stack (CMainWindow.cpp).

Conventions.  A C++ `int` is an `Int`; a `uint32_t` is a `Nat`, and the
conversion `static_cast<uint32_t>` is the explicit reduction modulo `2^32`
(`toUInt32`).  A `std::vector<uint32_t>` or `QVector` is a `List`.  Member
functions that mutate `*this` take the object and return the new object.
Executions that C++ leaves undefined are the result `none`: a signed
overflow of the product `newWidth * newHeight` in `CMap::resize` or of `w * h`
in `CMap::fromJson`, and a write past the end of the tile buffer in the copy
loop of `CMap::fromJson`.
-/

namespace MapEditor

/-! ## Qt JSON values, as far as `CMap` reads and writes them -/

/-- A `QJsonValue`.  A JSON number without fractional part is `Whole n`;
any other number is `Fractional`. -/
inductive QJsonValue where
  | Null
  | Bool (b : Bool)
  | Whole (n : Int)
  | Fractional
  | String (s : String)
  | Array (items : List QJsonValue)
  | Object (members : List (String × QJsonValue))
  | Undefined

/-- A `QJsonObject`: the members in insertion order, each key at most once. -/
abbrev QJsonObject := List (String × QJsonValue)

/-- Smallest value of a 32-bit `int`. -/
def INT_MIN : Int := -2147483648

/-- Largest value of a 32-bit `int`. -/
def INT_MAX : Int := 2147483647

/-- The conversion `static_cast<uint32_t>(n)` of an `int`. -/
def toUInt32 (n : Int) : Nat := (n % 4294967296).toNat

/-- The product of two `int`s; `none` when it overflows (undefined in C++). -/
def intMul (a b : Int) : Option Int :=
  if INT_MIN ≤ a * b ∧ a * b ≤ INT_MAX then some (a * b) else none

/-- `QJsonValue::toInt()`: the number when the value is a whole number that
fits an `int`, and the default `0` for every other value. -/
def QJsonValue.toInt : QJsonValue → Int
  | .Whole n => if INT_MIN ≤ n ∧ n ≤ INT_MAX then n else 0
  | _ => 0

/-- `QJsonValue::toArray()`: the items of an array, and the empty array for
every other value. -/
def QJsonValue.toArray : QJsonValue → List QJsonValue
  | .Array items => items
  | _ => []

/-- `QJsonObject::contains(key)`. -/
def QJsonObject.contains (obj : QJsonObject) (key : String) : Bool :=
  obj.any (fun kv => kv.1 == key)

/-- `QJsonObject::operator[](key) const`: the member, or `Undefined`. -/
def QJsonObject.value (obj : QJsonObject) (key : String) : QJsonValue :=
  match obj.find? (fun kv => kv.1 == key) with
  | some kv => kv.2
  | none => QJsonValue.Undefined

/-- The assignment `obj[key] = v`: replaces the member or adds it. -/
def QJsonObject.insert (obj : QJsonObject) (key : String) (v : QJsonValue) : QJsonObject :=
  if obj.contains key then obj.map (fun kv => if kv.1 == key then (key, v) else kv)
  else obj ++ [(key, v)]

/-! ## CMap -/

/-- The tile grid of CMap.h: `m_width`, `m_height` and the row-major buffer
`m_tiles`. -/
structure CMap where
  m_width : Int
  m_height : Int
  m_tiles : List Nat
  deriving DecidableEq, Repr

/-- The default constructor `CMap()`: an empty 0 x 0 grid. -/
def CMap.default : CMap := { m_width := 0, m_height := 0, m_tiles := [] }

/-- `CMap::width()`. -/
def CMap.width (self : CMap) : Int := self.m_width

/-- `CMap::height()`. -/
def CMap.height (self : CMap) : Int := self.m_height

/-- `CMap::isValidPosition`. -/
def CMap.isValidPosition (self : CMap) (x y : Int) : Bool :=
  decide (x ≥ 0) && decide (y ≥ 0) && decide (x < self.m_width) && decide (y < self.m_height)

/-- `CMap::tileAt`. -/
def CMap.tileAt (self : CMap) (x y : Int) : Nat :=
  if !self.isValidPosition x y then 0
  else self.m_tiles.getD (y * self.m_width + x).toNat 0

/-- `CMap::setTile`. -/
def CMap.setTile (self : CMap) (x y : Int) (value : Nat) : CMap :=
  if !self.isValidPosition x y then self
  else { self with m_tiles := self.m_tiles.set (y * self.m_width + x).toNat value }

/-- The inner loop of `CMap::resize`: copies row `y` of the old buffer. -/
def CMap.resize.copyRow (old : CMap) (newWidth : Int) (copyWidth : Int) (y : Nat)
    (newTiles : List Nat) : List Nat :=
  (List.range copyWidth.toNat).foldl
    (fun (acc : List Nat) (x : Nat) => acc.set ((y : Int) * newWidth + (x : Int)).toNat
      (old.m_tiles.getD ((y : Int) * old.m_width + (x : Int)).toNat 0))
    newTiles

/-- The body of `CMap::resize`: the new buffer of `newWidth * newHeight` cells,
the two copy loops and the three assignments.  `CMap.resize` runs it when the
product fits an `int`. -/
def CMap.resize.build (self : CMap) (w h : Int) (fill : Nat) : CMap :=
  let newWidth := max 0 w
  let newHeight := max 0 h
  let newTiles := List.replicate (newWidth * newHeight).toNat fill
  let copyWidth := min self.m_width newWidth
  let copyHeight := min self.m_height newHeight
  let newTiles := (List.range copyHeight.toNat).foldl
    (fun (acc : List Nat) (y : Nat) => CMap.resize.copyRow self newWidth copyWidth y acc) newTiles
  { m_width := newWidth, m_height := newHeight, m_tiles := newTiles }

/-- `CMap::resize`.  The buffer size `newWidth * newHeight` is the product of
two `int`s; when it overflows (undefined in C++) the result is `none`. -/
def CMap.resize (self : CMap) (w h : Int) (fill : Nat) : Option CMap :=
  match intMul (max 0 w) (max 0 h) with
  | none => none
  | some _ => some (CMap.resize.build self w h fill)

/-- The constructor `CMap(w, h)`, which calls `resize(w, h, 0)`. -/
def CMap.mk2 (w h : Int) : Option CMap := CMap.default.resize w h 0

/-- `CMap::clear`. -/
def CMap.clear (self : CMap) (fill : Nat) : CMap :=
  { self with m_tiles := self.m_tiles.map (fun _ => fill) }

/-- `CMap::toJson`. -/
def CMap.toJson (self : CMap) : QJsonObject :=
  let obj : QJsonObject := []
  let obj := obj.insert "width" (QJsonValue.Whole self.m_width)
  let obj := obj.insert "height" (QJsonValue.Whole self.m_height)
  let arr := self.m_tiles.map (fun (v : Nat) => QJsonValue.Whole (v : Int))
  obj.insert "tiles" (QJsonValue.Array arr)

/-- The copy loop of `CMap::fromJson`, from index `i` on, `arr` being the items
not yet copied: `m_tiles[i] = static_cast<uint32_t>(arr[i].toInt())`.  A write
at an index that is not below the size of the buffer gives `none`. -/
def CMap.fromJson.copy : List QJsonValue → Nat → List Nat → Option (List Nat)
  | [], _, tiles => some tiles
  | v :: rest, i, tiles =>
    if i < tiles.length then CMap.fromJson.copy rest (i + 1) (tiles.set i (toUInt32 v.toInt))
    else none

/-- `CMap::fromJson`: the returned flag and the grid after the call. -/
def CMap.fromJson (self : CMap) (obj : QJsonObject) : Option (Bool × CMap) :=
  if !obj.contains "width" || !obj.contains "height" || !obj.contains "tiles" then
    some (false, self)
  else
    let w := (obj.value "width").toInt
    let h := (obj.value "height").toInt
    let arr := (obj.value "tiles").toArray
    match intMul w h with
    | none => none
    | some wh =>
      if (arr.length : Int) ≠ wh then some (false, self)
      else
        match self.resize w h 0 with
        | none => none
        | some resized =>
          match CMap.fromJson.copy arr 0 resized.m_tiles with
          | none => none
          | some tiles => some (true, { resized with m_tiles := tiles })

/-- The data invariant of a grid: non-negative dimensions and
`m_tiles.size() == m_width * m_height`. -/
def CMap.Invariant (self : CMap) : Prop :=
  0 ≤ self.m_width ∧ 0 ≤ self.m_height ∧
    (self.m_tiles.length : Int) = self.m_width * self.m_height

instance (g : CMap) : Decidable g.Invariant := by
  unfold CMap.Invariant; infer_instance

/-- Every cell holds a `uint32_t`. -/
def CMap.CellsUInt32 (self : CMap) : Prop := ∀ v ∈ self.m_tiles, v < 4294967296

instance (g : CMap) : Decidable g.CellsUInt32 := by
  unfold CMap.CellsUInt32; infer_instance

/-! ## Documents and grids used in the scenarios -/

/-- The document `{"width":2,"height":2,"tiles":[1,2,3]}`. -/
def docLengthMismatch : QJsonObject :=
  [("width", QJsonValue.Whole 2), ("height", QJsonValue.Whole 2),
    ("tiles", QJsonValue.Array [QJsonValue.Whole 1, QJsonValue.Whole 2, QJsonValue.Whole 3])]

/-- The document `{"width":-2,"height":-3,"tiles":[0,0,0,0,0,0]}`. -/
def docNegativeDimensions : QJsonObject :=
  [("width", QJsonValue.Whole (-2)), ("height", QJsonValue.Whole (-3)),
    ("tiles", QJsonValue.Array (List.replicate 6 (QJsonValue.Whole 0)))]

/-- The document `{"width":-1,"height":0,"tiles":[]}`. -/
def docNegativeWidth : QJsonObject :=
  [("width", QJsonValue.Whole (-1)), ("height", QJsonValue.Whole 0),
    ("tiles", QJsonValue.Array [])]

/-- The document `{"width":1,"height":1,"tiles":[-1]}`. -/
def docNegativeTile : QJsonObject :=
  [("width", QJsonValue.Whole 1), ("height", QJsonValue.Whole 1),
    ("tiles", QJsonValue.Array [QJsonValue.Whole (-1)])]

/-- The document `{"width":2,"height":1,"tiles":[5,-1]}`. -/
def docTwoCells : QJsonObject :=
  [("width", QJsonValue.Whole 2), ("height", QJsonValue.Whole 1),
    ("tiles", QJsonValue.Array [QJsonValue.Whole 5, QJsonValue.Whole (-1)])]

/-- A 2 x 2 grid with the cells 7, 8, 9, 10. -/
def gridTwoByTwo : CMap := { m_width := 2, m_height := 2, m_tiles := [7, 8, 9, 10] }

/-- A 1 x 1 grid whose cell is the largest `uint32_t`. -/
def gridLargeTile : CMap := { m_width := 1, m_height := 1, m_tiles := [4294967295] }

/-! ## CMainView: flood fill and the paint / fill tools -/

/-- `Constants::TOOL_PAINT`. -/
def TOOL_PAINT : Int := 0

/-- `Constants::TOOL_FILL`. -/
def TOOL_FILL : Int := 1

/-- The `while (!stack.empty())` loop of `CMainView::collectFillTiles`.  The
first argument bounds the number of iterations; the head of `stack` is the top
of the `std::stack`; `visited` holds the elements of the `QSet`.  The result is
`none` when the bound is used up while the stack is not empty. -/
def CMainView.collectFillTiles.loop (map : CMap) (targetTile : Nat) :
    Nat → List (Int × Int) → List (Int × Int) → List (Int × Int) → Option (List (Int × Int))
  | _, [], _, result => some result
  | 0, _ :: _, _, _ => none
  | fuel + 1, (cx, cy) :: stack, visited, result =>
    if cx < 0 ∨ cy < 0 ∨ cx ≥ map.width ∨ cy ≥ map.height then
      CMainView.collectFillTiles.loop map targetTile fuel stack visited result
    else if (cx, cy) ∈ visited then
      CMainView.collectFillTiles.loop map targetTile fuel stack visited result
    else if map.tileAt cx cy ≠ targetTile then
      CMainView.collectFillTiles.loop map targetTile fuel stack visited result
    else
      CMainView.collectFillTiles.loop map targetTile fuel
        ((cx, cy - 1) :: (cx, cy + 1) :: (cx - 1, cy) :: (cx + 1, cy) :: stack)
        ((cx, cy) :: visited) (result ++ [(cx, cy)])

/-- A number of iterations that `CMainView::collectFillTiles` never exceeds on
`map`: four pushes for each cell and one for the start cell. -/
def CMainView.collectFillTiles.bound (map : CMap) : Nat :=
  4 * (map.m_width.toNat * map.m_height.toNat) + 1

/-- `CMainView::collectFillTiles`; `m_map` is the view's pointer to the grid,
`none` for the null pointer. -/
def CMainView.collectFillTiles (m_map : Option CMap) (x y : Int) (targetTile : Nat) :
    List (Int × Int) :=
  match m_map with
  | none => []
  | some map =>
    (CMainView.collectFillTiles.loop map targetTile (CMainView.collectFillTiles.bound map)
      [(x, y)] [] []).getD []

/-- The signals `tileChanged` and `fillApplied` of `CMainView`. -/
inductive Signal where
  | tileChanged (x y : Int) (value : Nat)
  | fillApplied (tiles : List (Int × Int)) (value : Nat)
  deriving DecidableEq

/-- `CMainView::paintTile`, from the tile coordinates `tileX`, `tileY` that it
computes from the scene position: the signal it emits, if any. -/
def CMainView.paintTile (m_map : Option CMap) (m_currentTool : Int) (tileX tileY : Int)
    (tileValue : Int) : Option Signal :=
  match m_map with
  | none => none
  | some map =>
    if tileX ≥ 0 ∧ tileX < map.width ∧ tileY ≥ 0 ∧ tileY < map.height then
      if m_currentTool = TOOL_FILL then
        let oldTile := map.tileAt tileX tileY
        if oldTile ≠ toUInt32 tileValue then
          let tiles := CMainView.collectFillTiles (some map) tileX tileY oldTile
          if !tiles.isEmpty then some (Signal.fillApplied tiles (toUInt32 tileValue))
          else none
        else none
      else
        let oldValue := map.tileAt tileX tileY
        if oldValue ≠ toUInt32 tileValue then
          some (Signal.tileChanged tileX tileY (toUInt32 tileValue))
        else none
    else none

/-! ## The edit commands of CMainWindow.cpp -/

/-- The data members of a `SetTileCommand` (the grid it points to is passed to
`undo` and `redo`). -/
structure SetTileCommand where
  m_x : Int
  m_y : Int
  m_oldValue : Nat
  m_newValue : Nat
  deriving DecidableEq

/-- The constructor of `SetTileCommand`. -/
def SetTileCommand.new (map : CMap) (x y : Int) (newValue : Nat) : SetTileCommand :=
  { m_x := x, m_y := y, m_newValue := newValue, m_oldValue := map.tileAt x y }

/-- `SetTileCommand::undo`. -/
def SetTileCommand.undo (c : SetTileCommand) (map : CMap) : CMap :=
  map.setTile c.m_x c.m_y c.m_oldValue

/-- `SetTileCommand::redo`. -/
def SetTileCommand.redo (c : SetTileCommand) (map : CMap) : CMap :=
  map.setTile c.m_x c.m_y c.m_newValue

/-- The data members of a `FillCommand`. -/
structure FillCommand where
  m_tiles : List (Int × Int)
  m_oldValues : List Nat
  m_newValue : Nat
  deriving DecidableEq

/-- The constructor of `FillCommand`. -/
def FillCommand.new (map : CMap) (tiles : List (Int × Int)) (newValue : Nat) : FillCommand :=
  { m_tiles := tiles, m_newValue := newValue,
    m_oldValues := tiles.foldl
      (fun (old : List Nat) (tile : Int × Int) => old ++ [map.tileAt tile.1 tile.2]) [] }

/-- `FillCommand::undo`. -/
def FillCommand.undo (c : FillCommand) (map : CMap) : CMap :=
  (List.range c.m_tiles.length).foldl
    (fun (m : CMap) (i : Nat) =>
      m.setTile (c.m_tiles.getD i (0, 0)).1 (c.m_tiles.getD i (0, 0)).2 (c.m_oldValues.getD i 0))
    map

/-- `FillCommand::redo`. -/
def FillCommand.redo (c : FillCommand) (map : CMap) : CMap :=
  c.m_tiles.foldl (fun (m : CMap) (tile : Int × Int) => m.setTile tile.1 tile.2 c.m_newValue) map

/-- A `QUndoCommand` of the editor: one of its two subclasses. -/
inductive Command where
  | setTile (c : SetTileCommand)
  | fill (c : FillCommand)
  deriving DecidableEq

/-- The virtual `undo()`. -/
def Command.undo : Command → CMap → CMap
  | .setTile c, map => c.undo map
  | .fill c, map => c.undo map

/-- The virtual `redo()`. -/
def Command.redo : Command → CMap → CMap
  | .setTile c, map => c.redo map
  | .fill c, map => c.redo map

/-! ## The history and the window -/

/-- Modelled from the spec: the `QUndoStack` of Qt, which the sources only
call.  The History of the specification: `undoStack` holds the applied
commands and `redoStack` the undone ones, most recent last, and `cleanMark`
is the length of `undoStack` recorded by the last `setClean`. -/
structure QUndoStack where
  undoStack : List Command
  redoStack : List Command
  cleanMark : Nat
  deriving DecidableEq

/-- The part of `CMainWindow` that editing touches: the grid `*m_map` and the
history `*m_undoStack`. -/
structure CMainWindow where
  m_map : CMap
  m_undoStack : QUndoStack
  deriving DecidableEq

/-- Modelled from the spec: `QUndoStack::push` is missing from the sources.
It applies `redo()` immediately, appends to `undoStack`, clears `redoStack`. -/
def CMainWindow.push (s : CMainWindow) (cmd : Command) : CMainWindow :=
  { m_map := cmd.redo s.m_map,
    m_undoStack := { s.m_undoStack with
      undoStack := s.m_undoStack.undoStack ++ [cmd], redoStack := [] } }

/-- Modelled from the spec: `QUndoStack::undo` is missing from the sources.
No-op if `undoStack` is empty; else pop the command, call `undo()`, push it to
`redoStack`. -/
def CMainWindow.undo (s : CMainWindow) : CMainWindow :=
  match s.m_undoStack.undoStack.getLast? with
  | none => s
  | some cmd =>
    { m_map := cmd.undo s.m_map,
      m_undoStack := { s.m_undoStack with
        undoStack := s.m_undoStack.undoStack.dropLast,
        redoStack := s.m_undoStack.redoStack ++ [cmd] } }

/-- Modelled from the spec: `QUndoStack::redo` is missing from the sources.
No-op if `redoStack` is empty; else pop the command, call `redo()`, push it to
`undoStack`. -/
def CMainWindow.redo (s : CMainWindow) : CMainWindow :=
  match s.m_undoStack.redoStack.getLast? with
  | none => s
  | some cmd =>
    { m_map := cmd.redo s.m_map,
      m_undoStack := { s.m_undoStack with
        undoStack := s.m_undoStack.undoStack ++ [cmd],
        redoStack := s.m_undoStack.redoStack.dropLast } }

/-- The slot connected to `CMainView::tileChanged` in the constructor of
`CMainWindow`. -/
def CMainWindow.onTileChanged (s : CMainWindow) (x y : Int) (value : Nat) : CMainWindow :=
  s.push (Command.setTile (SetTileCommand.new s.m_map x y value))

/-- The slot connected to `CMainView::fillApplied` in the constructor of
`CMainWindow`. -/
def CMainWindow.onFillApplied (s : CMainWindow) (tiles : List (Int × Int)) (value : Nat) :
    CMainWindow :=
  s.push (Command.fill (FillCommand.new s.m_map tiles value))

/-- Delivery of a signal of the view to the slot connected to it. -/
def CMainWindow.deliver (s : CMainWindow) : Option Signal → CMainWindow
  | none => s
  | some (Signal.tileChanged x y value) => s.onTileChanged x y value
  | some (Signal.fillApplied tiles value) => s.onFillApplied tiles value

/-- A paint or fill intent: the tool selected in the view, the tile under the
pointer and the value `paintTile` is called with. -/
structure Intent where
  tool : Int
  tileX : Int
  tileY : Int
  tileValue : Int
  deriving DecidableEq

/-- One intent: `CMainView::paintTile` on the window's grid, and the slot run by
the signal it emits. -/
def CMainWindow.intent (s : CMainWindow) (i : Intent) : CMainWindow :=
  s.deliver (CMainView.paintTile (some s.m_map) i.tool i.tileX i.tileY i.tileValue)

/-- A sequence of intents, in order. -/
def CMainWindow.intents (s : CMainWindow) (is : List Intent) : CMainWindow :=
  is.foldl CMainWindow.intent s

/-- The number of commands on the undo stack. -/
def CMainWindow.count (s : CMainWindow) : Nat := s.m_undoStack.undoStack.length

/-- The call `undo()` repeated `n` times. -/
def CMainWindow.undoTimes (s : CMainWindow) : Nat → CMainWindow
  | 0 => s
  | n + 1 => CMainWindow.undoTimes s.undo n

/-! ## The region of a flood fill -/

/-- The cell `p` is inside the grid and holds `target`. -/
def InRegion (map : CMap) (target : Nat) (p : Int × Int) : Prop :=
  map.isValidPosition p.1 p.2 = true ∧ map.tileAt p.1 p.2 = target

/-- The cell `q` is the right, left, lower or upper neighbour of `p`. -/
def Adjacent (p q : Int × Int) : Prop :=
  q = (p.1 + 1, p.2) ∨ q = (p.1 - 1, p.2) ∨ q = (p.1, p.2 + 1) ∨ q = (p.1, p.2 - 1)

/-- One step between neighbouring cells that both hold `target`. -/
def RegionStep (map : CMap) (target : Nat) (p q : Int × Int) : Prop :=
  InRegion map target p ∧ Adjacent p q ∧ InRegion map target q

/-- The 4-connected component of `seed` among the in-bounds cells holding
`target`: the cells joined to `seed` by a path of such cells in which each cell
is a horizontal or vertical neighbour of the one before. -/
def InComponent (map : CMap) (target : Nat) (seed p : Int × Int) : Prop :=
  InRegion map target seed ∧ Relation.ReflTransGen (RegionStep map target) seed p

/-- All positions inside the grid, row by row. -/
def CMap.cells (map : CMap) : List (Int × Int) :=
  (List.range map.m_height.toNat).flatMap
    (fun (y : Nat) => (List.range map.m_width.toNat).map (fun (x : Nat) => ((x : Int), (y : Int))))

/-- The number of in-bounds cells that are not in `visited`. -/
def CMap.unvisited (map : CMap) (visited : List (Int × Int)) : Nat :=
  (map.cells.filter (fun p => decide (p ∉ visited))).length

/-- The 2 x 2 grid `[1,1,2,1]` of the fill scenario. -/
def gridFillScenario : CMap := { m_width := 2, m_height := 2, m_tiles := [1, 1, 2, 1] }

/-- The 3 x 3 all-zero grid of the undo scenario. -/
def gridZero3 : CMap := { m_width := 3, m_height := 3, m_tiles := List.replicate 9 0 }

/-- A window on `map` with an empty history. -/
def CMainWindow.fresh (map : CMap) : CMainWindow :=
  { m_map := map, m_undoStack := { undoStack := [], redoStack := [], cleanMark := 0 } }

/-! ## Reachable grids -/

/-- The grids that the public interface of `CMap` produces: the two
constructors, and `setTile`, `clear`, a `resize` that has a result and a
`fromJson` that returns `true` or `false`, applied to such a grid. -/
inductive CMap.Reachable : CMap → Prop where
  | default : CMap.Reachable CMap.default
  | mk2 {g : CMap} (w h : Int) : CMap.mk2 w h = some g → CMap.Reachable g
  | setTile {g : CMap} (x y : Int) (value : Nat) :
      CMap.Reachable g → CMap.Reachable (g.setTile x y value)
  | resize {g g2 : CMap} (w h : Int) (fill : Nat) :
      CMap.Reachable g → g.resize w h fill = some g2 → CMap.Reachable g2
  | clear {g : CMap} (fill : Nat) : CMap.Reachable g → CMap.Reachable (g.clear fill)
  | fromJson {g g2 : CMap} (obj : QJsonObject) (flag : Bool) :
      CMap.Reachable g → g.fromJson obj = some (flag, g2) → CMap.Reachable g2

/-- The positions `(x, y)` with `x < copyWidth` and `y < copyHeight`, in the
order in which the two loops of `CMap::resize` visit them. -/
def CMap.resize.positions (copyWidth copyHeight : Nat) : List (Nat × Nat) :=
  (List.range copyHeight).flatMap
    (fun (y : Nat) => (List.range copyWidth).map (fun (x : Nat) => (x, y)))

/-! ## The modified flag of the window -/

/-- Modelled from the spec: `QUndoStack::isClean` is missing from the sources.
The stack is clean when the current `undoStack` length equals the saved
baseline. -/
def QUndoStack.isClean (u : QUndoStack) : Bool := u.undoStack.length == u.cleanMark

/-- Modelled from the spec: `QUndoStack::setClean` is missing from the sources.
It records the current `undoStack` length as the saved baseline. -/
def QUndoStack.setClean (u : QUndoStack) : QUndoStack :=
  { u with cleanMark := u.undoStack.length }

/-- Modelled from the spec: `QUndoStack::clear` is missing from the sources.
It clears the history and records the baseline at the empty stack. -/
def QUndoStack.clear (_u : QUndoStack) : QUndoStack :=
  { undoStack := [], redoStack := [], cleanMark := 0 }

/-- The window with its flag: `window` is the editing part (`m_map`,
`m_undoStack`) and `m_modified` the member of that name of `CMainWindow`. -/
structure Session where
  window : CMainWindow
  m_modified : Bool
  deriving DecidableEq

/-- The slot connected to `QUndoStack::cleanChanged` in the constructor of
`CMainWindow`. -/
def Session.onCleanChanged (s : Session) (clean : Bool) : Session :=
  if !clean && !s.m_modified then { s with m_modified := true } else s

/-- Modelled from the spec: the signal `cleanChanged` of `QUndoStack`, which
the sources only connect.  After an operation that takes the editing part to
`w`, the slot runs with the new clean state when the clean state has changed. -/
def Session.stackChanged (s : Session) (w : CMainWindow) : Session :=
  if w.m_undoStack.isClean != s.window.m_undoStack.isClean then
    Session.onCleanChanged { s with window := w } w.m_undoStack.isClean
  else { s with window := w }

/-- A paint or fill intent in the window. -/
def Session.intent (s : Session) (i : Intent) : Session :=
  s.stackChanged (s.window.intent i)

/-- The undo action. -/
def Session.undo (s : Session) : Session := s.stackChanged s.window.undo

/-- The redo action. -/
def Session.redo (s : Session) : Session := s.stackChanged s.window.redo

/-- `CMainWindow::onSaveMap`; `written` tells whether a path was chosen and the
file was written.  The returned flag is the result of the slot where
`onOpenMap` reads it, that is under `m_modified`: `true` after a written save
and `false` otherwise (with an empty path the slot returns `!m_modified`). -/
def Session.onSaveMap (s : Session) (written : Bool) : Bool × Session :=
  if written then
    let s1 := s.stackChanged { s.window with m_undoStack := s.window.m_undoStack.setClean }
    (true, { s1 with m_modified := false })
  else (false, s)

/-- `CMainWindow::onMapPreferences` when the dialog is accepted with the sizes
`newWidth` and `newHeight`; `none` when `CMap::resize` has no result. -/
def Session.onMapPreferences (s : Session) (newWidth newHeight : Int) : Option Session :=
  if newWidth ≠ s.window.m_map.width ∨ newHeight ≠ s.window.m_map.height then
    match s.window.m_map.resize newWidth newHeight 0 with
    | none => none
    | some map =>
      let s1 := s.stackChanged { m_map := map, m_undoStack := s.window.m_undoStack.clear }
      some { s1 with m_modified := true }
  else some s

/-- `CMainWindow::onNewMap`; `yes` is the answer to its question. -/
def Session.onNewMap (s : Session) (yes : Bool) : Session :=
  if s.m_modified && !yes then s
  else
    let s1 := s.stackChanged
      { m_map := s.window.m_map.clear 0, m_undoStack := s.window.m_undoStack.clear }
    { s1 with m_modified := false }

/-- The answers to the question of `CMainWindow::onOpenMap`. -/
inductive Answer where
  | Save
  | Discard
  | Cancel
  deriving DecidableEq

/-- The part of `CMainWindow::onOpenMap` after its question: `doc` is the
JSON object read from the chosen file, `none` when no file was chosen or it
could not be read or parsed. -/
def Session.onOpenMap.load (s : Session) (doc : Option QJsonObject) : Option Session :=
  match doc with
  | none => some s
  | some obj =>
    match s.window.m_map.fromJson obj with
    | none => none
    | some (false, _) => some s
    | some (true, map) =>
      let s1 := s.stackChanged { m_map := map, m_undoStack := s.window.m_undoStack.clear }
      some { s1 with m_modified := false }

/-- `CMainWindow::onOpenMap`; `none` when `CMap::fromJson` has no result. -/
def Session.onOpenMap (s : Session) (answer : Answer) (written : Bool)
    (doc : Option QJsonObject) : Option Session :=
  if s.m_modified then
    match answer with
    | Answer.Save =>
      if !(s.onSaveMap written).1 then some s
      else Session.onOpenMap.load (s.onSaveMap written).2 doc
    | Answer.Cancel => some s
    | Answer.Discard => Session.onOpenMap.load s doc
  else Session.onOpenMap.load s doc

/-- The operations of a session. -/
inductive Operation where
  | paint (i : Intent)
  | undo
  | redo
  | save (written : Bool)
  | resize (newWidth newHeight : Int)
  | newMap (yes : Bool)
  | openMap (answer : Answer) (written : Bool) (doc : Option QJsonObject)

/-- One operation. -/
def Session.step (s : Session) : Operation → Option Session
  | Operation.paint i => some (s.intent i)
  | Operation.undo => some s.undo
  | Operation.redo => some s.redo
  | Operation.save written => some (s.onSaveMap written).2
  | Operation.resize newWidth newHeight => s.onMapPreferences newWidth newHeight
  | Operation.newMap yes => some (s.onNewMap yes)
  | Operation.openMap answer written doc => s.onOpenMap answer written doc

/-- A sequence of operations, in order. -/
def Session.run (s : Session) : List Operation → Option Session
  | [] => some s
  | op :: ops =>
    match s.step op with
    | none => none
    | some s1 => Session.run s1 ops

/-- The window after the constructor of `CMainWindow`: the grid that
`new CMap()` and `resize(32, 32, 0)` give (32 x 32 zeros; the product fits an
`int`, so `resize` runs its body), an empty history, not modified. -/
def Session.initial : Session :=
  { window := CMainWindow.fresh (CMap.resize.build CMap.default 32 32 0),
    m_modified := false }

/-- The current undo-stack position differs from the clean marker. -/
def Session.positionDiffers (s : Session) : Prop :=
  s.window.m_undoStack.undoStack.length ≠ s.window.m_undoStack.cleanMark

/-- The document `{"width":2,"height":2,"tiles":[0,0,0,0]}`. -/
def docZero2 : QJsonObject :=
  [("width", QJsonValue.Whole 2), ("height", QJsonValue.Whole 2),
    ("tiles", QJsonValue.Array (List.replicate 4 (QJsonValue.Whole 0)))]

/-! ## The writes of the copy loop of `CMap::fromJson` -/

/-- The document `obj` passes the validation of `CMap::fromJson`: the keys
`width`, `height` and `tiles` are present and the length of `tiles` equals
`width * height`. -/
def CMap.fromJson.passes (obj : QJsonObject) : Prop :=
  obj.contains "width" = true ∧ obj.contains "height" = true ∧ obj.contains "tiles" = true ∧
    intMul (obj.value "width").toInt (obj.value "height").toInt
      = some ((obj.value "tiles").toArray.length : Int)

instance (obj : QJsonObject) : Decidable (CMap.fromJson.passes obj) := by
  unfold CMap.fromJson.passes; infer_instance

/-- Every index `i` with `0 <= i < arr.size()` that the copy loop of
`CMap::fromJson` writes is below the size of the buffer that
`resize(w, h)` leaves in `m_tiles`. -/
def CMap.fromJson.writesInside (self : CMap) (obj : QJsonObject) : Prop :=
  ∀ resized : CMap,
    self.resize (obj.value "width").toInt (obj.value "height").toInt 0 = some resized →
    ∀ i : Nat, i < (obj.value "tiles").toArray.length → i < resized.m_tiles.length

/-! ## Lemmas on `CMap::resize`, `toJson` and `fromJson` -/

theorem toJson_eq (g : CMap) :
    g.toJson = [("width", QJsonValue.Whole g.m_width), ("height", QJsonValue.Whole g.m_height),
      ("tiles", QJsonValue.Array (g.m_tiles.map (fun (v : Nat) => QJsonValue.Whole (v : Int))))] := by
  simp [CMap.toJson, QJsonObject.insert, QJsonObject.contains]

theorem take_succ_set (tiles : List Nat) (i c : Nat) (hi : i < tiles.length) :
    (tiles.set i c).take (i + 1) = tiles.take i ++ [c] := by
  rw [List.take_succ, List.getElem?_set_self hi, List.set_take,
    List.set_eq_of_length_le (by simp)]
  rfl

theorem fromJson_copy_eq (arr : List QJsonValue) :
    ∀ (i : Nat) (tiles : List Nat), i + arr.length ≤ tiles.length →
      CMap.fromJson.copy arr i tiles
        = some (tiles.take i ++ arr.map (fun v => toUInt32 v.toInt) ++ tiles.drop (i + arr.length)) := by
  induction arr with
  | nil => intro i tiles _; simp [CMap.fromJson.copy]
  | cons v rest ih =>
    intro i tiles h
    simp only [List.length_cons] at h
    have hi : i < tiles.length := by omega
    rw [CMap.fromJson.copy, if_pos hi, ih (i + 1) _ (by simp; omega), take_succ_set _ _ _ hi,
      List.drop_set_of_lt _ _ (by omega)]
    simp [Nat.add_assoc, Nat.add_comm 1]

theorem fromJson_copy_none (arr : List QJsonValue) :
    ∀ (i : Nat) (tiles : List Nat), arr ≠ [] → tiles.length < i + arr.length →
      CMap.fromJson.copy arr i tiles = none := by
  induction arr with
  | nil => intro i tiles h; exact absurd rfl h
  | cons v rest ih =>
    intro i tiles _ h
    simp only [List.length_cons] at h
    rw [CMap.fromJson.copy]
    split
    · rename_i hi
      cases rest with
      | nil => simp at h; omega
      | cons u rest2 => exact ih (i + 1) _ (by simp) (by simp at h ⊢; omega)
    · rfl

theorem foldl_set_length (l : List Nat) (f g : Nat → Nat) :
    ∀ t : List Nat, (l.foldl (fun acc x => acc.set (f x) (g x)) t).length = t.length := by
  induction l with
  | nil => intro t; rfl
  | cons a l ih => intro t; simp [List.foldl_cons, ih]

theorem copyRow_length (old : CMap) (newWidth copyWidth : Int) (y : Nat) (t : List Nat) :
    (CMap.resize.copyRow old newWidth copyWidth y t).length = t.length := by
  unfold CMap.resize.copyRow
  exact foldl_set_length _ _ _ t

theorem foldl_copyRow_length (old : CMap) (newWidth copyWidth : Int) (l : List Nat) :
    ∀ t : List Nat,
      (l.foldl (fun acc y => CMap.resize.copyRow old newWidth copyWidth y acc) t).length
        = t.length := by
  induction l with
  | nil => intro t; rfl
  | cons a l ih => intro t; simp [List.foldl_cons, ih, copyRow_length]

theorem build_width (g : CMap) (w h : Int) (fill : Nat) :
    (CMap.resize.build g w h fill).m_width = max 0 w := rfl

theorem build_height (g : CMap) (w h : Int) (fill : Nat) :
    (CMap.resize.build g w h fill).m_height = max 0 h := rfl

theorem build_length (g : CMap) (w h : Int) (fill : Nat) :
    (CMap.resize.build g w h fill).m_tiles.length = (max 0 w * max 0 h).toNat := by
  simp [CMap.resize.build, foldl_copyRow_length]

theorem intMul_eq_some (a b wh : Int) (h : intMul a b = some wh) :
    wh = a * b ∧ INT_MIN ≤ a * b ∧ a * b ≤ INT_MAX := by
  unfold intMul at h
  split at h
  · rename_i hr; injection h with h; exact ⟨h.symm, hr⟩
  · cases h

/-- `CMap::resize` has a result exactly when the product of the clamped sizes
fits an `int`, and the result is the grid its body builds. -/
theorem resize_eq_some_iff (g g2 : CMap) (w h : Int) (fill : Nat) :
    g.resize w h fill = some g2
      ↔ max 0 w * max 0 h ≤ INT_MAX ∧ g2 = CMap.resize.build g w h fill := by
  have h0 : INT_MIN ≤ max 0 w * max 0 h :=
    le_trans (by decide) (mul_nonneg (le_max_left _ _) (le_max_left _ _))
  unfold CMap.resize intMul
  by_cases hfit : max 0 w * max 0 h ≤ INT_MAX
  · rw [if_pos ⟨h0, hfit⟩]
    constructor
    · intro he; injection he with he; exact ⟨hfit, he.symm⟩
    · intro he; rw [he.2]
  · rw [if_neg (fun hc => hfit hc.2)]
    constructor
    · intro he; cases he
    · intro he; exact absurd he.1 hfit

theorem resize_eq_some (g : CMap) (w h : Int) (fill : Nat)
    (hfit : max 0 w * max 0 h ≤ INT_MAX) :
    g.resize w h fill = some (CMap.resize.build g w h fill) :=
  (resize_eq_some_iff g _ w h fill).mpr ⟨hfit, rfl⟩

theorem resize_eq_none (g : CMap) (w h : Int) (fill : Nat)
    (hbig : INT_MAX < max 0 w * max 0 h) : g.resize w h fill = none := by
  cases hr : g.resize w h fill with
  | none => rfl
  | some g2 =>
    have := ((resize_eq_some_iff g g2 w h fill).mp hr).1
    omega

/-- After the check `w * h` of `CMap::fromJson` the call `resize(w, h)` has a
result: its product is `w * h` or `0`. -/
theorem resize_of_intMul (g : CMap) (w h wh : Int) (fill : Nat) (ho : intMul w h = some wh) :
    g.resize w h fill = some (CMap.resize.build g w h fill) := by
  obtain ⟨_, _, hhi⟩ := intMul_eq_some _ _ _ ho
  have hpos : (0 : Int) ≤ INT_MAX := by decide
  apply resize_eq_some
  rcases le_or_lt 0 w with h1 | h1 <;> rcases le_or_lt 0 h with hm2 | hm2
  · rw [max_eq_right h1, max_eq_right hm2]; exact hhi
  · rw [max_eq_left (le_of_lt hm2), mul_zero]; exact hpos
  · rw [max_eq_left (le_of_lt h1), zero_mul]; exact hpos
  · rw [max_eq_left (le_of_lt h1), zero_mul]; exact hpos

/-- The three keys `CMap::fromJson` asks for. -/
theorem fromJson_missing_key (g : CMap) (obj : QJsonObject)
    (hk : ¬ (obj.contains "width" = true ∧ obj.contains "height" = true ∧
      obj.contains "tiles" = true)) : g.fromJson obj = some (false, g) := by
  unfold CMap.fromJson
  rw [if_pos]
  by_contra hc
  apply hk
  simp at hc
  exact ⟨hc.1.1, hc.1.2, hc.2⟩

theorem fromJson_overflow (g : CMap) (obj : QJsonObject)
    (hw : obj.contains "width" = true) (hh : obj.contains "height" = true)
    (ht : obj.contains "tiles" = true)
    (ho : intMul (obj.value "width").toInt (obj.value "height").toInt = none) :
    g.fromJson obj = none := by
  unfold CMap.fromJson
  simp [hw, hh, ht, ho]

theorem fromJson_length_mismatch (g : CMap) (obj : QJsonObject)
    (hw : obj.contains "width" = true) (hh : obj.contains "height" = true)
    (ht : obj.contains "tiles" = true) (wh : Int)
    (ho : intMul (obj.value "width").toInt (obj.value "height").toInt = some wh)
    (hl : ((obj.value "tiles").toArray.length : Int) ≠ wh) :
    g.fromJson obj = some (false, g) := by
  unfold CMap.fromJson
  simp [hw, hh, ht, ho, hl]

theorem fromJson_success (g : CMap) (obj : QJsonObject)
    (hw : obj.contains "width" = true) (hh : obj.contains "height" = true)
    (ht : obj.contains "tiles" = true) (wh : Int)
    (ho : intMul (obj.value "width").toInt (obj.value "height").toInt = some wh)
    (hl : ((obj.value "tiles").toArray.length : Int) = wh)
    (hs : 0 ≤ (obj.value "width").toInt ∨ 0 ≤ (obj.value "height").toInt) :
    g.fromJson obj = some (true,
      { m_width := max 0 (obj.value "width").toInt,
        m_height := max 0 (obj.value "height").toInt,
        m_tiles := (obj.value "tiles").toArray.map (fun v => toUInt32 v.toInt) }) := by
  obtain ⟨hwh, _, _⟩ := intMul_eq_some _ _ _ ho
  have hlen : ((CMap.resize.build g (obj.value "width").toInt (obj.value "height").toInt 0).m_tiles.length)
      = (obj.value "tiles").toArray.length := by
    rw [build_length]
    generalize (obj.value "width").toInt = w at *
    generalize (obj.value "height").toInt = h at *
    generalize (obj.value "tiles").toArray.length = n at *
    subst hwh
    rcases le_or_lt 0 w with h1 | h1 <;> rcases le_or_lt 0 h with h2 | h2
    · rw [max_eq_right h1, max_eq_right h2, ← hl]; simp
    · have : w * h = 0 := by nlinarith [mul_nonneg h1 (by omega : (0:Int) ≤ -h)]
      have hh0 : w = 0 := by
        rcases mul_eq_zero.mp this with h0 | h0
        · exact h0
        · omega
      subst hh0; simp at hl ⊢; omega
    · have : w * h = 0 := by nlinarith [mul_nonneg (by omega : (0:Int) ≤ -w) h2]
      have hh0 : h = 0 := by
        rcases mul_eq_zero.mp this with h0 | h0
        · omega
        · exact h0
      subst hh0; simp at hl ⊢; omega
    · omega
  have hres := resize_of_intMul g _ _ wh 0 ho
  unfold CMap.fromJson
  simp only [hw, hh, ht, ho, hres]
  have hc := fromJson_copy_eq (obj.value "tiles").toArray 0
    (CMap.resize.build g (obj.value "width").toInt (obj.value "height").toInt 0).m_tiles (by omega)
  simp [hl, hc, hlen, build_width, build_height]

theorem fromJson_both_negative (g : CMap) (obj : QJsonObject)
    (hw : obj.contains "width" = true) (hh : obj.contains "height" = true)
    (ht : obj.contains "tiles" = true) (wh : Int)
    (ho : intMul (obj.value "width").toInt (obj.value "height").toInt = some wh)
    (hl : ((obj.value "tiles").toArray.length : Int) = wh)
    (hs : (obj.value "width").toInt < 0 ∧ (obj.value "height").toInt < 0) :
    g.fromJson obj = none := by
  obtain ⟨hwh, _, _⟩ := intMul_eq_some _ _ _ ho
  have hlen : ((CMap.resize.build g (obj.value "width").toInt (obj.value "height").toInt 0).m_tiles.length)
      = 0 := by
    rw [build_length, max_eq_left (le_of_lt hs.1)]; simp
  have hpos : 0 < (obj.value "width").toInt * (obj.value "height").toInt :=
    mul_pos_of_neg_of_neg hs.1 hs.2
  have hne : (obj.value "tiles").toArray ≠ [] := by
    intro h0
    rw [h0] at hl
    simp at hl
    omega
  have hc := fromJson_copy_none (obj.value "tiles").toArray 0
    (CMap.resize.build g (obj.value "width").toInt (obj.value "height").toInt 0).m_tiles hne
    (by rw [hlen]; cases hq : (obj.value "tiles").toArray with
        | nil => exact absurd hq hne
        | cons a l => simp)
  have hres := resize_of_intMul g _ _ wh 0 ho
  unfold CMap.fromJson
  simp [hw, hh, ht, ho, hl, hres, hc]

/-- The grid of the constructed window is the result of `resize(32, 32, 0)` on
the grid of `new CMap()`. -/
theorem initial_map_resize :
    CMap.default.resize 32 32 0 = some Session.initial.window.m_map :=
  resize_eq_some CMap.default 32 32 0 (by decide)

theorem toInt_whole (n : Int) (h1 : INT_MIN ≤ n) (h2 : n ≤ INT_MAX) :
    (QJsonValue.Whole n).toInt = n := by
  simp [QJsonValue.toInt, h1, h2]

theorem toUInt32_of_nat (v : Nat) (h : v < 4294967296) : toUInt32 (v : Int) = v := by
  unfold toUInt32
  omega

/-- Saving and loading returns the grid whenever every cell fits an `int`. -/
theorem fromJson_toJson_small_cells (g g0 : CMap) (hinv : g.Invariant)
    (hw : g.m_width ≤ INT_MAX) (hh : g.m_height ≤ INT_MAX)
    (hwh : g.m_width * g.m_height ≤ INT_MAX)
    (hcells : ∀ v ∈ g.m_tiles, (v : Int) ≤ INT_MAX) :
    g0.fromJson g.toJson = some (true, g) := by
  obtain ⟨h0w, h0h, hlen⟩ := hinv
  have hmin : INT_MIN ≤ 0 := by decide
  have e1 : (QJsonObject.value g.toJson "width").toInt = g.m_width := by
    rw [toJson_eq]
    simp [QJsonObject.value]
    exact toInt_whole _ (le_trans hmin h0w) hw
  have e2 : (QJsonObject.value g.toJson "height").toInt = g.m_height := by
    rw [toJson_eq]
    simp [QJsonObject.value]
    exact toInt_whole _ (le_trans hmin h0h) hh
  have e3 : (QJsonObject.value g.toJson "tiles").toArray
      = g.m_tiles.map (fun (v : Nat) => QJsonValue.Whole (v : Int)) := by
    rw [toJson_eq]
    simp [QJsonObject.value, QJsonValue.toArray]
  have hmul : intMul g.m_width g.m_height = some (g.m_width * g.m_height) := by
    unfold intMul
    rw [if_pos ⟨le_trans hmin (mul_nonneg h0w h0h), hwh⟩]
  have hs := fromJson_success g0 g.toJson (by rw [toJson_eq]; simp [QJsonObject.contains])
    (by rw [toJson_eq]; simp [QJsonObject.contains])
    (by rw [toJson_eq]; simp [QJsonObject.contains]) (g.m_width * g.m_height) (by rw [e1, e2]; exact hmul)
    (by rw [e3]; simpa using hlen) (by rw [e1]; exact Or.inl h0w)
  rw [hs, e1, e2, e3, max_eq_right h0w, max_eq_right h0h]
  have hmap : List.map (fun v => toUInt32 v.toInt)
      (g.m_tiles.map (fun (v : Nat) => QJsonValue.Whole (v : Int))) = g.m_tiles := by
    rw [List.map_map]
    conv_rhs => rw [← List.map_id g.m_tiles]
    apply List.map_congr_left
    intro v hv
    have := hcells v hv
    simp only [Function.comp, id]
    rw [toInt_whole _ (le_trans hmin (by omega)) this]
    apply toUInt32_of_nat
    unfold INT_MAX at this
    omega
  rw [hmap]


theorem fromJson_true_iff (g : CMap) (obj : QJsonObject) (g' : CMap) :
    g.fromJson obj = some (true, g') ↔
      (obj.contains "width" = true ∧ obj.contains "height" = true ∧
        obj.contains "tiles" = true) ∧
      intMul (obj.value "width").toInt (obj.value "height").toInt
        = some ((obj.value "tiles").toArray.length : Int) ∧
      (0 ≤ (obj.value "width").toInt ∨ 0 ≤ (obj.value "height").toInt) ∧
      g' = { m_width := max 0 (obj.value "width").toInt,
             m_height := max 0 (obj.value "height").toInt,
             m_tiles := (obj.value "tiles").toArray.map (fun v => toUInt32 v.toInt) } := by
  constructor
  · intro h
    by_cases hk : obj.contains "width" = true ∧ obj.contains "height" = true ∧
        obj.contains "tiles" = true
    · obtain ⟨hw, hh, ht⟩ := hk
      cases ho : intMul (obj.value "width").toInt (obj.value "height").toInt with
      | none => rw [fromJson_overflow g obj hw hh ht ho] at h; cases h
      | some wh =>
        by_cases hl : ((obj.value "tiles").toArray.length : Int) = wh
        · by_cases hs : 0 ≤ (obj.value "width").toInt ∨ 0 ≤ (obj.value "height").toInt
          · rw [fromJson_success g obj hw hh ht wh ho hl hs] at h
            injection h with h
            injection h with _ h
            exact ⟨⟨hw, hh, ht⟩, by rw [hl], hs, h.symm⟩
          · rw [not_or, not_le, not_le] at hs
            rw [fromJson_both_negative g obj hw hh ht wh ho hl hs] at h
            cases h
        · rw [fromJson_length_mismatch g obj hw hh ht wh ho hl] at h
          injection h with h
          injection h with h _
          cases h
    · rw [fromJson_missing_key g obj hk] at h
      injection h with h
      injection h with h _
      cases h
  · rintro ⟨⟨hw, hh, ht⟩, ho, hs, rfl⟩
    exact fromJson_success g obj hw hh ht _ ho rfl hs

theorem fromJson_false_iff (g : CMap) (obj : QJsonObject) (g' : CMap) :
    g.fromJson obj = some (false, g') ↔
      g' = g ∧
      (¬ (obj.contains "width" = true ∧ obj.contains "height" = true ∧
          obj.contains "tiles" = true) ∨
        ∃ wh, intMul (obj.value "width").toInt (obj.value "height").toInt = some wh ∧
          ((obj.value "tiles").toArray.length : Int) ≠ wh) := by
  constructor
  · intro h
    by_cases hk : obj.contains "width" = true ∧ obj.contains "height" = true ∧
        obj.contains "tiles" = true
    · obtain ⟨hw, hh, ht⟩ := hk
      cases ho : intMul (obj.value "width").toInt (obj.value "height").toInt with
      | none => rw [fromJson_overflow g obj hw hh ht ho] at h; cases h
      | some wh =>
        by_cases hl : ((obj.value "tiles").toArray.length : Int) = wh
        · by_cases hs : 0 ≤ (obj.value "width").toInt ∨ 0 ≤ (obj.value "height").toInt
          · rw [fromJson_success g obj hw hh ht wh ho hl hs] at h
            injection h with h
            injection h with h _
            cases h
          · rw [not_or, not_le, not_le] at hs
            rw [fromJson_both_negative g obj hw hh ht wh ho hl hs] at h
            cases h
        · rw [fromJson_length_mismatch g obj hw hh ht wh ho hl] at h
          injection h with h
          injection h with _ h
          exact ⟨h.symm, Or.inr ⟨wh, rfl, hl⟩⟩
    · rw [fromJson_missing_key g obj hk] at h
      injection h with h
      injection h with _ h
      exact ⟨h.symm, Or.inl hk⟩
  · rintro ⟨rfl, hk | ⟨wh, ho, hl⟩⟩
    · exact fromJson_missing_key _ obj hk
    · by_cases hk : obj.contains "width" = true ∧ obj.contains "height" = true ∧
          obj.contains "tiles" = true
      · exact fromJson_length_mismatch _ obj hk.1 hk.2.1 hk.2.2 wh ho hl
      · exact fromJson_missing_key _ obj hk

theorem getD_map_toUInt32 (arr : List QJsonValue) (i : Nat) :
    (arr.map (fun v => toUInt32 v.toInt)).getD i 0
      = toUInt32 (arr.getD i QJsonValue.Undefined).toInt := by
  have h0 : (0 : Nat) = (fun v => toUInt32 v.toInt) QJsonValue.Undefined := by decide
  rw [h0, List.getD_map]

/-! ## C1 - C4: persistence -/

/-- C1, evaluated on the code: saving and loading does not return every grid.
The cell `4294967295` is what loading `{"width":1,"height":1,"tiles":[-1]}`
stores; `toJson` writes it as `4294967295`, and `fromJson` reads that document
back as a grid whose cell is `0`, because `toInt()` yields its default for a
number that does not fit an `int`. -/
theorem fromJson_toJson_large_tile_lost :
    CMap.default.fromJson docNegativeTile = some (true, gridLargeTile) ∧
    gridLargeTile.Invariant ∧ gridLargeTile.CellsUInt32 ∧
    CMap.default.fromJson gridLargeTile.toJson
      = some (true, { m_width := 1, m_height := 1, m_tiles := [0] }) ∧
    gridLargeTile.tileAt 0 0 = 4294967295 ∧
    (CMap.mk 1 1 [0]).tileAt 0 0 = 0 := by
  decide

/-- C2, evaluated on the code: the document
`{"width":-2,"height":-3,"tiles":[0,0,0,0,0,0]}` has the three keys and its
`tiles` array has length `6 = (-2) * (-3)`, yet `fromJson` returns neither
`true` nor `false` on it: after `resize(-2, -3)` the buffer is empty and the
copy loop writes outside it. -/
theorem fromJson_negative_dimensions_no_result :
    docNegativeDimensions.contains "width" = true ∧
    docNegativeDimensions.contains "height" = true ∧
    docNegativeDimensions.contains "tiles" = true ∧
    (((docNegativeDimensions.value "tiles").toArray.length : Int)
      = (docNegativeDimensions.value "width").toInt
          * (docNegativeDimensions.value "height").toInt) ∧
    gridTwoByTwo.resize (-2) (-3) 0 = some { m_width := 0, m_height := 0, m_tiles := [] } ∧
    gridTwoByTwo.fromJson docNegativeDimensions = none := by
  decide

/-- C3: whenever `CMap::fromJson` returns `false`, the grid after the call is
the grid before it: same width, same height, same cells. -/
theorem fromJson_false_grid_unchanged (g : CMap) (obj : QJsonObject) (g' : CMap)
    (h : g.fromJson obj = some (false, g')) :
    g' = g ∧ g'.m_width = g.m_width ∧ g'.m_height = g.m_height ∧
      ∀ x y, g'.tileAt x y = g.tileAt x y := by
  have := ((fromJson_false_iff g obj g').mp h).1
  subst this
  exact ⟨rfl, rfl, rfl, fun _ _ => rfl⟩

/-- C3 at the scenario of the specification: loading
`{"width":2,"height":2,"tiles":[1,2,3]}` into a 2 x 2 grid fails and changes
nothing. -/
theorem fromJson_false_grid_unchanged_witness :
    gridTwoByTwo.fromJson docLengthMismatch = some (false, gridTwoByTwo) ∧
    gridTwoByTwo.m_tiles = [7, 8, 9, 10] :=
  ⟨(congrArg (fun r => some (false, r))
      (fromJson_false_grid_unchanged gridTwoByTwo docLengthMismatch gridTwoByTwo
        (by decide)).1).trans (by decide), rfl⟩

/-- C4 as stated fails: (1) `{"width":-1,"height":0,"tiles":[]}` loads with
result `true` into a grid of width `0`, not `-1`; (2) loading
`{"width":1,"height":1,"tiles":[-1]}` succeeds and cell `(0,0)` then holds
`4294967295`, not `-1`. -/
theorem fromJson_true_differs_from_document :
    (gridTwoByTwo.fromJson docNegativeWidth
        = some (true, { m_width := 0, m_height := 0, m_tiles := [] }) ∧
      docNegativeWidth.value "width" = QJsonValue.Whole (-1) ∧
      (CMap.mk 0 0 []).width ≠ -1) ∧
    (gridTwoByTwo.fromJson docNegativeTile = some (true, gridLargeTile) ∧
      (docNegativeTile.value "tiles").toArray.getD 0 QJsonValue.Undefined
        = QJsonValue.Whole (-1) ∧
      (gridLargeTile.tileAt 0 0 : Int) ≠ -1) := by
  refine ⟨⟨by decide, rfl, by decide⟩, by decide, rfl, by decide⟩

/-- C4 (amended): whenever `CMap::fromJson` returns `true`, the grid afterwards
has width `max 0 w` and height `max 0 h`, where `w` and `h` are the document's
`width` and `height` read with `toInt()`, and its buffer has one cell for each
item of `tiles`.  For every in-bounds `(x, y)` the width and height are `w` and
`h`, and when the item `tiles[y*w + x]` is a whole number `n` within the range
of `int`, `tileAt(x, y)` is `n` converted to `uint32_t`: `n` itself when
`n >= 0` and `n + 2^32` when `n < 0`.  The grid is the same whatever grid
received the load. -/
theorem fromJson_true_grid_replaced (g : CMap) (obj : QJsonObject) (g' : CMap)
    (h : g.fromJson obj = some (true, g')) :
    g'.m_width = max 0 (obj.value "width").toInt ∧
    g'.m_height = max 0 (obj.value "height").toInt ∧
    g'.m_tiles.length = (obj.value "tiles").toArray.length ∧
    (∀ x y, g'.isValidPosition x y = true →
      g'.m_width = (obj.value "width").toInt ∧ g'.m_height = (obj.value "height").toInt ∧
      ∀ n : Int,
        (obj.value "tiles").toArray.getD
          (y * (obj.value "width").toInt + x).toNat QJsonValue.Undefined = QJsonValue.Whole n →
        INT_MIN ≤ n → n ≤ INT_MAX →
          g'.tileAt x y = toUInt32 n ∧
          (0 ≤ n → (g'.tileAt x y : Int) = n) ∧
          (n < 0 → (g'.tileAt x y : Int) = n + 4294967296)) ∧
    (∀ g2 : CMap, g2.fromJson obj = some (true, g')) := by
  obtain ⟨hk, ho, hs, hg⟩ := (fromJson_true_iff g obj g').mp h
  refine ⟨by rw [hg], by rw [hg], by rw [hg]; simp, ?_, ?_⟩
  · intro x y hv
    have hv2 := hv
    simp only [CMap.isValidPosition, Bool.and_eq_true, decide_eq_true_eq] at hv2
    obtain ⟨⟨⟨hx0, hy0⟩, hxw⟩, hyh⟩ := hv2
    have hw : g'.m_width = (obj.value "width").toInt := by
      rw [hg] at hxw ⊢
      simp only at hxw ⊢
      rcases le_total 0 (obj.value "width").toInt with h1 | h1
      · exact max_eq_right h1
      · rw [max_eq_left h1] at hxw; omega
    have hh : g'.m_height = (obj.value "height").toInt := by
      rw [hg] at hyh ⊢
      simp only at hyh ⊢
      rcases le_total 0 (obj.value "height").toInt with h1 | h1
      · exact max_eq_right h1
      · rw [max_eq_left h1] at hyh; omega
    refine ⟨hw, hh, ?_⟩
    intro n hitem hlo hhi
    have ht : g'.tileAt x y = toUInt32 n := by
      unfold CMap.tileAt
      rw [hv]
      simp only [Bool.not_true, Bool.false_eq_true, if_false]
      rw [hw, hg]
      simp only
      rw [getD_map_toUInt32, hitem, toInt_whole n hlo hhi]
    rw [ht]
    unfold INT_MIN at hlo
    unfold INT_MAX at hhi
    unfold toUInt32
    refine ⟨rfl, ?_, ?_⟩ <;> intro hn <;> omega
  · intro g2
    exact (fromJson_true_iff g2 obj g').mpr ⟨hk, ho, hs, hg⟩

/-- C4 (amended) at a concrete load: `{"width":2,"height":1,"tiles":[5,-1]}`
loaded into a 2 x 2 grid; cell `(1, 0)` reads the item `-1` and holds
`-1 + 2^32`. -/
theorem fromJson_true_grid_replaced_witness :
    gridTwoByTwo.fromJson docTwoCells
        = some (true, { m_width := 2, m_height := 1, m_tiles := [5, 4294967295] }) ∧
    ((CMap.mk 2 1 [5, 4294967295]).tileAt 1 0 : Int) = -1 + 4294967296 :=
  ⟨by decide,
   (((fromJson_true_grid_replaced gridTwoByTwo docTwoCells
      { m_width := 2, m_height := 1, m_tiles := [5, 4294967295] } (by decide)).2.2.2.1
      1 0 (by decide)).2.2 (-1) rfl (by decide) (by decide)).2.2 (by decide)⟩


/-! ## Lemmas on `setTile` and `tileAt` -/

theorem setTile_width (g : CMap) (x y : Int) (v : Nat) : (g.setTile x y v).m_width = g.m_width := by
  unfold CMap.setTile; split <;> rfl

theorem setTile_height (g : CMap) (x y : Int) (v : Nat) :
    (g.setTile x y v).m_height = g.m_height := by
  unfold CMap.setTile; split <;> rfl

theorem setTile_length (g : CMap) (x y : Int) (v : Nat) :
    (g.setTile x y v).m_tiles.length = g.m_tiles.length := by
  unfold CMap.setTile; split <;> simp

theorem setTile_isValidPosition (g : CMap) (x y : Int) (v : Nat) (a b : Int) :
    (g.setTile x y v).isValidPosition a b = g.isValidPosition a b := by
  unfold CMap.isValidPosition
  rw [setTile_width, setTile_height]

theorem setTile_invariant (g : CMap) (x y : Int) (v : Nat) (h : g.Invariant) :
    (g.setTile x y v).Invariant := by
  unfold CMap.Invariant at *
  rw [setTile_width, setTile_height, setTile_length]
  exact h

theorem isValidPosition_iff (g : CMap) (x y : Int) :
    g.isValidPosition x y = true ↔ 0 ≤ x ∧ 0 ≤ y ∧ x < g.m_width ∧ y < g.m_height := by
  simp only [CMap.isValidPosition, Bool.and_eq_true, decide_eq_true_eq, ge_iff_le]
  tauto

/-- Inside a grid that satisfies the invariant, the row-major index of a valid
position is below the size of the buffer. -/
theorem index_lt_length (g : CMap) (x y : Int) (hinv : g.Invariant)
    (hv : g.isValidPosition x y = true) :
    (y * g.m_width + x).toNat < g.m_tiles.length := by
  obtain ⟨hx0, hy0, hxw, hyh⟩ := (isValidPosition_iff g x y).mp hv
  obtain ⟨_, _, hlen⟩ := hinv
  have h1 : y * g.m_width + x < g.m_width * g.m_height := by nlinarith
  have h2 : 0 ≤ y * g.m_width + x := by nlinarith
  omega

/-- Two valid positions with the same row-major index are the same. -/
theorem index_injective (g : CMap) (x y a b : Int) (hv : g.isValidPosition x y = true)
    (hw : g.isValidPosition a b = true)
    (he : (y * g.m_width + x).toNat = (b * g.m_width + a).toNat) : x = a ∧ y = b := by
  obtain ⟨hx0, hy0, hxw, hyh⟩ := (isValidPosition_iff g x y).mp hv
  obtain ⟨ha0, hb0, haw, hbh⟩ := (isValidPosition_iff g a b).mp hw
  have h1 : 0 ≤ y * g.m_width + x := by nlinarith
  have h2 : 0 ≤ b * g.m_width + a := by nlinarith
  have h3 : y * g.m_width + x = b * g.m_width + a := by omega
  have hyb : y = b := by
    rcases lt_trichotomy y b with h | h | h
    · exfalso
      have : (y + 1) * g.m_width ≤ b * g.m_width :=
        mul_le_mul_of_nonneg_right (by omega) (by omega)
      nlinarith
    · exact h
    · exfalso
      have : (b + 1) * g.m_width ≤ y * g.m_width :=
        mul_le_mul_of_nonneg_right (by omega) (by omega)
      nlinarith
  subst hyb
  exact ⟨by omega, rfl⟩

theorem tileAt_setTile_same (g : CMap) (x y : Int) (v : Nat) (hinv : g.Invariant)
    (hv : g.isValidPosition x y = true) : (g.setTile x y v).tileAt x y = v := by
  have hi := index_lt_length g x y hinv hv
  unfold CMap.tileAt
  rw [setTile_isValidPosition, hv]
  unfold CMap.setTile
  rw [hv]
  simp [hi]

theorem tileAt_setTile_other (g : CMap) (x y : Int) (v : Nat) (a b : Int)
    (hne : (a, b) ≠ (x, y)) : (g.setTile x y v).tileAt a b = g.tileAt a b := by
  unfold CMap.tileAt
  rw [setTile_isValidPosition]
  by_cases hw : g.isValidPosition a b = true
  · rw [hw]
    simp only [Bool.not_true, Bool.false_eq_true, if_false]
    rw [setTile_width]
    unfold CMap.setTile
    by_cases hv : g.isValidPosition x y = true
    · rw [hv]
      simp only [Bool.not_true, Bool.false_eq_true, if_false]
      have hidx : (y * g.m_width + x).toNat ≠ (b * g.m_width + a).toNat := by
        intro he
        obtain ⟨h1, h2⟩ := index_injective g x y a b hv hw he
        exact hne (by rw [h1, h2])
      simp [List.getD_eq_getElem?_getD, List.getElem?_set_ne hidx]
    · simp [hv]
  · simp [hw]

theorem set_getD_self (l : List Nat) (i d : Nat) : l.set i (l.getD i d) = l := by
  apply List.ext_getElem?
  intro k
  by_cases hk : i = k
  · subst hk
    by_cases hi : i < l.length
    · rw [List.getElem?_set_self hi]
      simp [List.getD_eq_getElem?_getD, List.getElem?_eq_getElem hi]
    · rw [List.set_eq_of_length_le (by omega)]
  · rw [List.getElem?_set_ne hk]

/-! ## Lemmas on the commands -/

theorem setTileCommand_undo_redo (g : CMap) (x y : Int) (v : Nat) :
    (SetTileCommand.new g x y v).undo ((SetTileCommand.new g x y v).redo g) = g := by
  unfold SetTileCommand.undo SetTileCommand.redo SetTileCommand.new
  simp only
  by_cases hv : g.isValidPosition x y = true
  · have h1 : g.setTile x y v = { g with m_tiles := g.m_tiles.set (y * g.m_width + x).toNat v } := by
      unfold CMap.setTile; simp [hv]
    rw [h1]
    unfold CMap.setTile CMap.tileAt
    have hv2 : CMap.isValidPosition
        { g with m_tiles := g.m_tiles.set (y * g.m_width + x).toNat v } x y = true := hv
    rw [hv2, hv]
    simp only [Bool.not_true, Bool.false_eq_true, if_false, List.set_set]
    rw [set_getD_self]
  · have h1 : g.setTile x y v = g := by
      unfold CMap.setTile; simp [hv]
    rw [h1]
    unfold CMap.setTile
    simp [hv]


theorem foldl_snoc_eq_map (tiles : List (Int × Int)) (f : Int × Int → Nat) :
    ∀ acc : List Nat,
      tiles.foldl (fun (old : List Nat) (tile : Int × Int) => old ++ [f tile]) acc
        = acc ++ tiles.map f := by
  induction tiles with
  | nil => intro acc; simp
  | cons t rest ih => intro acc; simp [List.foldl_cons, ih]

theorem FillCommand.new_oldValues (g : CMap) (tiles : List (Int × Int)) (v : Nat) :
    (FillCommand.new g tiles v).m_oldValues = tiles.map (fun t => g.tileAt t.1 t.2) := by
  unfold FillCommand.new
  simp only
  rw [foldl_snoc_eq_map tiles (fun t => g.tileAt t.1 t.2) []]
  rfl

/-- A loop over the indices of a list is the fold over its elements. -/
theorem foldl_range_eq_foldl {α : Type} (l : List α) :
    ∀ (F : CMap → Nat → CMap) (G : CMap → α → CMap) (m : CMap),
      (∀ (m : CMap) (i : Nat) (hi : i < l.length), F m i = G m (l.get ⟨i, hi⟩)) →
      (List.range l.length).foldl F m = l.foldl G m := by
  induction l with
  | nil => intro F G m _; rfl
  | cons a rest ih =>
    intro F G m hFG
    rw [List.length_cons, List.range_succ_eq_map, List.foldl_cons, List.foldl_map,
      List.foldl_cons]
    have h0 : F m 0 = G m a := hFG m 0 (by simp)
    rw [h0]
    apply ih (fun m i => F m (i + 1)) G (G m a)
    intro m i hi
    exact hFG m (i + 1) (by simp; omega)

theorem FillCommand.undo_eq (g : CMap) (tiles : List (Int × Int)) (v : Nat) (m : CMap) :
    (FillCommand.new g tiles v).undo m
      = tiles.foldl (fun (m : CMap) (t : Int × Int) => m.setTile t.1 t.2 (g.tileAt t.1 t.2)) m := by
  unfold FillCommand.undo
  rw [FillCommand.new_oldValues]
  have hc : (FillCommand.new g tiles v).m_tiles = tiles := rfl
  rw [hc]
  apply foldl_range_eq_foldl tiles
  intro m i hi
  simp only [List.get_eq_getElem]
  rw [List.getD_eq_getElem _ _ hi, List.getD_eq_getElem _ _ (by simpa using hi)]
  simp

/-- A run of `setTile` calls changes the buffer only: the writes are those of
the valid positions, at their row-major index. -/
theorem foldl_setTile_eq (val : Int × Int → Nat) (tiles : List (Int × Int)) :
    ∀ m : CMap,
      tiles.foldl (fun (m : CMap) (t : Int × Int) => m.setTile t.1 t.2 (val t)) m
        = { m with m_tiles := tiles.foldl (fun (l : List Nat) (t : Int × Int) =>
              if m.isValidPosition t.1 t.2 = true
              then l.set (t.2 * m.m_width + t.1).toNat (val t) else l) m.m_tiles } := by
  induction tiles with
  | nil => intro m; rfl
  | cons t rest ih =>
    intro m
    rw [List.foldl_cons, ih, List.foldl_cons]
    have hvalid : ∀ a b, (m.setTile t.1 t.2 (val t)).isValidPosition a b
        = m.isValidPosition a b := setTile_isValidPosition m _ _ _
    simp only [hvalid, setTile_width]
    by_cases hv : m.isValidPosition t.1 t.2 = true
    · simp [CMap.setTile, hv]
    · simp [CMap.setTile, hv]

/-- The buffer after a run of guarded writes whose value depends on the index
only. -/
theorem getElem?_foldl_set (P : Int × Int → Prop) [DecidablePred P] (ix : Int × Int → Nat)
    (h : Nat → Nat) (tiles : List (Int × Int)) :
    ∀ (l : List Nat) (k : Nat),
      (tiles.foldl (fun (l : List Nat) (t : Int × Int) =>
          if P t then l.set (ix t) (h (ix t)) else l) l)[k]?
        = if (∃ t ∈ tiles, P t ∧ ix t = k) ∧ k < l.length then some (h k) else l[k]? := by
  induction tiles with
  | nil => intro l k; simp
  | cons t rest ih =>
    intro l k
    rw [List.foldl_cons, ih]
    by_cases hr : ∃ u ∈ rest, P u ∧ ix u = k
    · have hr2 : ∃ u ∈ t :: rest, P u ∧ ix u = k := by
        obtain ⟨u, hu, hp⟩ := hr
        exact ⟨u, List.mem_cons_of_mem _ hu, hp⟩
      by_cases hP : P t
      · simp only [hr, hr2, hP, if_true, true_and, List.length_set]
        split
        · rfl
        · rename_i hk
          rw [List.getElem?_eq_none (by simp; omega), List.getElem?_eq_none (by omega)]
      · simp only [hr, hr2, hP, if_false, true_and]
    · by_cases hP : P t
      · by_cases hk : ix t = k
        · have hr2 : ∃ u ∈ t :: rest, P u ∧ ix u = k := ⟨t, List.mem_cons_self _ _, hP, hk⟩
          simp only [hr, hr2, hP, if_true, true_and, false_and, if_false]
          subst hk
          by_cases hlt : ix t < l.length
          · rw [if_pos hlt, List.getElem?_set_self hlt]
          · rw [if_neg hlt, List.set_eq_of_length_le (by omega)]
        · have hr2 : ¬ ∃ u ∈ t :: rest, P u ∧ ix u = k := by
            rintro ⟨u, hu, hp⟩
            rcases List.mem_cons.mp hu with rfl | hu
            · exact hk hp.2
            · exact hr ⟨u, hu, hp⟩
          simp only [hr, hr2, hP, if_true, false_and, if_false]
          rw [List.getElem?_set_ne hk]
      · have hr2 : ¬ ∃ u ∈ t :: rest, P u ∧ ix u = k := by
          rintro ⟨u, hu, hp⟩
          rcases List.mem_cons.mp hu with rfl | hu
          · exact hP hp.1
          · exact hr ⟨u, hu, hp⟩
        simp only [hr, hr2, hP, if_false, false_and]

theorem length_foldl_set (P : Int × Int → Prop) [DecidablePred P] (ix : Int × Int → Nat)
    (val : Int × Int → Nat) (tiles : List (Int × Int)) :
    ∀ (l : List Nat),
      (tiles.foldl (fun (l : List Nat) (t : Int × Int) =>
          if P t then l.set (ix t) (val t) else l) l).length = l.length := by
  induction tiles with
  | nil => intro l; rfl
  | cons t rest ih =>
    intro l
    rw [List.foldl_cons, ih]
    split <;> simp

theorem fillCommand_undo_redo (g : CMap) (tiles : List (Int × Int)) (v : Nat) :
    (FillCommand.new g tiles v).undo ((FillCommand.new g tiles v).redo g) = g := by
  rw [FillCommand.undo_eq]
  have hredo : (FillCommand.new g tiles v).redo g
      = tiles.foldl (fun (m : CMap) (t : Int × Int) => m.setTile t.1 t.2 ((fun _ => v) t)) g := rfl
  rw [hredo, foldl_setTile_eq (fun _ => v) tiles g,
    foldl_setTile_eq (fun t => g.tileAt t.1 t.2) tiles]
  simp only
  have hvalid : ∀ a b, CMap.isValidPosition
      { g with m_tiles := tiles.foldl (fun (l : List Nat) (t : Int × Int) =>
              if g.isValidPosition t.1 t.2 = true
              then l.set (t.2 * g.m_width + t.1).toNat v else l) g.m_tiles } a b
      = g.isValidPosition a b := fun _ _ => rfl
  simp only [hvalid]
  have hfun : (fun (l : List Nat) (t : Int × Int) =>
      if g.isValidPosition t.1 t.2 = true
      then l.set (t.2 * g.m_width + t.1).toNat (g.tileAt t.1 t.2) else l)
      = (fun (l : List Nat) (t : Int × Int) =>
      if g.isValidPosition t.1 t.2 = true
      then l.set (t.2 * g.m_width + t.1).toNat
        ((fun i => g.m_tiles.getD i 0) ((t.2 * g.m_width + t.1).toNat)) else l) := by
    funext l t
    by_cases hv : g.isValidPosition t.1 t.2 = true
    · simp [hv, CMap.tileAt]
    · simp [hv]
  rw [hfun]
  have hfun2 : (fun (l : List Nat) (t : Int × Int) =>
      if g.isValidPosition t.1 t.2 = true
      then l.set (t.2 * g.m_width + t.1).toNat v else l)
      = (fun (l : List Nat) (t : Int × Int) =>
      if g.isValidPosition t.1 t.2 = true
      then l.set (t.2 * g.m_width + t.1).toNat
        ((fun _ => v) ((t.2 * g.m_width + t.1).toNat)) else l) := rfl
  have hbuf : tiles.foldl (fun (l : List Nat) (t : Int × Int) =>
      if g.isValidPosition t.1 t.2 = true
      then l.set (t.2 * g.m_width + t.1).toNat
        ((fun i => g.m_tiles.getD i 0) ((t.2 * g.m_width + t.1).toNat)) else l)
      (tiles.foldl (fun (l : List Nat) (t : Int × Int) =>
        if g.isValidPosition t.1 t.2 = true
        then l.set (t.2 * g.m_width + t.1).toNat v else l) g.m_tiles) = g.m_tiles := by
    apply List.ext_getElem?
    intro k
    rw [getElem?_foldl_set (fun t => g.isValidPosition t.1 t.2 = true)
      (fun t => (t.2 * g.m_width + t.1).toNat) (fun i => g.m_tiles.getD i 0)]
    rw [length_foldl_set (fun t => g.isValidPosition t.1 t.2 = true)
      (fun t => (t.2 * g.m_width + t.1).toNat) (fun _ => v)]
    split
    · rename_i hk
      simp [List.getD_eq_getElem?_getD, List.getElem?_eq_getElem hk.2]
    · rename_i hk
      rw [hfun2, getElem?_foldl_set (fun t => g.isValidPosition t.1 t.2 = true)
        (fun t => (t.2 * g.m_width + t.1).toNat) (fun _ => v)]
      rw [if_neg hk]
  rw [hbuf]

theorem Command.undo_redo_setTile (g : CMap) (x y : Int) (v : Nat) :
    (Command.setTile (SetTileCommand.new g x y v)).undo
      ((Command.setTile (SetTileCommand.new g x y v)).redo g) = g :=
  setTileCommand_undo_redo g x y v

theorem Command.undo_redo_fill (g : CMap) (tiles : List (Int × Int)) (v : Nat) :
    (Command.fill (FillCommand.new g tiles v)).undo
      ((Command.fill (FillCommand.new g tiles v)).redo g) = g :=
  fillCommand_undo_redo g tiles v


/-! ## Lemmas on `CMainView::collectFillTiles` -/

/-- The bounds test of the loop is the negation of `isValidPosition`. -/
theorem outside_iff (g : CMap) (cx cy : Int) :
    (cx < 0 ∨ cy < 0 ∨ cx ≥ g.width ∨ cy ≥ g.height) ↔ ¬ g.isValidPosition cx cy = true := by
  rw [isValidPosition_iff]
  unfold CMap.width CMap.height
  constructor
  · rintro (h | h | h | h) ⟨h1, h2, h3, h4⟩ <;> omega
  · intro h
    by_contra hc
    apply h
    refine ⟨?_, ?_, ?_, ?_⟩ <;> omega

theorem loop_nil (g : CMap) (target fuel : Nat) (visited result : List (Int × Int)) :
    CMainView.collectFillTiles.loop g target fuel [] visited result = some result := by
  cases fuel <;> rfl

theorem loop_skip (g : CMap) (target fuel : Nat) (c : Int × Int)
    (stack visited result : List (Int × Int))
    (h : ¬ InRegion g target c ∨ c ∈ visited) :
    CMainView.collectFillTiles.loop g target (fuel + 1) (c :: stack) visited result
      = CMainView.collectFillTiles.loop g target fuel stack visited result := by
  obtain ⟨cx, cy⟩ := c
  rw [CMainView.collectFillTiles.loop]
  by_cases hout : cx < 0 ∨ cy < 0 ∨ cx ≥ g.width ∨ cy ≥ g.height
  · rw [if_pos hout]
  · rw [if_neg hout]
    by_cases hvis : (cx, cy) ∈ visited
    · rw [if_pos hvis]
    · rw [if_neg hvis]
      have hval : g.isValidPosition cx cy = true := by
        by_contra hc
        exact hout ((outside_iff g cx cy).mpr hc)
      have hne : g.tileAt cx cy ≠ target := by
        intro he
        rcases h with h | h
        · exact h ⟨hval, he⟩
        · exact hvis h
      rw [if_pos hne]

theorem loop_visit (g : CMap) (target fuel : Nat) (c : Int × Int)
    (stack visited result : List (Int × Int))
    (hr : InRegion g target c) (hv : c ∉ visited) :
    CMainView.collectFillTiles.loop g target (fuel + 1) (c :: stack) visited result
      = CMainView.collectFillTiles.loop g target fuel
          ((c.1, c.2 - 1) :: (c.1, c.2 + 1) :: (c.1 - 1, c.2) :: (c.1 + 1, c.2) :: stack)
          (c :: visited) (result ++ [c]) := by
  obtain ⟨cx, cy⟩ := c
  rw [CMainView.collectFillTiles.loop]
  have hout : ¬ (cx < 0 ∨ cy < 0 ∨ cx ≥ g.width ∨ cy ≥ g.height) := by
    intro h
    exact (outside_iff g cx cy).mp h hr.1
  rw [if_neg hout, if_neg hv, if_neg (not_not.mpr hr.2)]

/-- The invariant of the loop, for the start cell `seed`. -/
theorem loop_component (g : CMap) (target : Nat) (seed : Int × Int) :
    ∀ (fuel : Nat) (stack visited result r : List (Int × Int)),
      (∀ p, p ∈ result ↔ p ∈ visited) →
      (∀ p ∈ visited, InComponent g target seed p) →
      (∀ q ∈ stack, InRegion g target q → InComponent g target seed q) →
      (∀ p ∈ visited, ∀ q, Adjacent p q → InRegion g target q → q ∈ visited ∨ q ∈ stack) →
      (InRegion g target seed → seed ∈ visited ∨ seed ∈ stack) →
      CMainView.collectFillTiles.loop g target fuel stack visited result = some r →
      ∀ p, p ∈ r ↔ InComponent g target seed p := by
  intro fuel
  induction fuel with
  | zero =>
    intro stack visited result r h1 h2 h3 h4 h5 hrun
    cases stack with
    | nil =>
      rw [loop_nil] at hrun
      injection hrun with hrun
      subst hrun
      intro p
      rw [h1]
      constructor
      · exact h2 p
      · rintro ⟨hseed, hpath⟩
        have hs : seed ∈ visited := by
          rcases h5 hseed with h | h
          · exact h
          · cases h
        induction hpath with
        | refl => exact hs
        | tail _ hstep ih =>
          rcases h4 _ ih _ hstep.2.1 hstep.2.2 with h | h
          · exact h
          · cases h
    | cons c rest => simp [CMainView.collectFillTiles.loop] at hrun
  | succ fuel ih =>
    intro stack visited result r h1 h2 h3 h4 h5 hrun
    cases stack with
    | nil =>
      rw [loop_nil] at hrun
      injection hrun with hrun
      subst hrun
      intro p
      rw [h1]
      constructor
      · exact h2 p
      · rintro ⟨hseed, hpath⟩
        have hs : seed ∈ visited := by
          rcases h5 hseed with h | h
          · exact h
          · cases h
        induction hpath with
        | refl => exact hs
        | tail _ hstep ih2 =>
          rcases h4 _ ih2 _ hstep.2.1 hstep.2.2 with h | h
          · exact h
          · cases h
    | cons c rest =>
      by_cases hskip : ¬ InRegion g target c ∨ c ∈ visited
      · rw [loop_skip g target fuel c rest visited result hskip] at hrun
        refine ih rest visited result r h1 h2 ?_ ?_ ?_ hrun
        · intro q hq hreg
          exact h3 q (List.mem_cons_of_mem _ hq) hreg
        · intro p hp q hadj hreg
          rcases h4 p hp q hadj hreg with h | h
          · exact Or.inl h
          · rcases List.mem_cons.mp h with rfl | h
            · rcases hskip with hs | hs
              · exact absurd hreg hs
              · exact Or.inl hs
            · exact Or.inr h
        · intro hseed
          rcases h5 hseed with h | h
          · exact Or.inl h
          · rcases List.mem_cons.mp h with rfl | h
            · rcases hskip with hs | hs
              · exact absurd hseed hs
              · exact Or.inl hs
            · exact Or.inr h
      · rw [not_or, not_not] at hskip
        obtain ⟨hreg, hvis⟩ := hskip
        rw [loop_visit g target fuel c rest visited result hreg hvis] at hrun
        have hc : InComponent g target seed c := h3 c (List.mem_cons_self _ _) hreg
        refine ih _ (c :: visited) (result ++ [c]) r ?_ ?_ ?_ ?_ ?_ hrun
        · intro p
          rw [List.mem_append, List.mem_singleton, List.mem_cons, h1]
          tauto
        · intro p hp
          rcases List.mem_cons.mp hp with rfl | hp
          · exact hc
          · exact h2 p hp
        · intro q hq hqreg
          have hnb : Adjacent c q ∨ q ∈ rest := by
            simp only [List.mem_cons] at hq
            unfold Adjacent
            tauto
          rcases hnb with hadj | hq
          · exact ⟨hc.1, Relation.ReflTransGen.tail hc.2 ⟨hreg, hadj, hqreg⟩⟩
          · exact h3 q (List.mem_cons_of_mem _ hq) hqreg
        · intro p hp q hadj hqreg
          rcases List.mem_cons.mp hp with rfl | hp
          · right
            unfold Adjacent at hadj
            simp only [List.mem_cons]
            tauto
          · rcases h4 p hp q hadj hqreg with h | h
            · exact Or.inl (List.mem_cons_of_mem _ h)
            · rcases List.mem_cons.mp h with rfl | h
              · exact Or.inl (List.mem_cons_self _ _)
              · right
                simp only [List.mem_cons]
                tauto
        · intro hseed
          rcases h5 hseed with h | h
          · exact Or.inl (List.mem_cons_of_mem _ h)
          · rcases List.mem_cons.mp h with rfl | h
            · exact Or.inl (List.mem_cons_self _ _)
            · right
              simp only [List.mem_cons]
              tauto


theorem mem_cells (g : CMap) (p : Int × Int) (h : g.isValidPosition p.1 p.2 = true) :
    p ∈ g.cells := by
  obtain ⟨hx0, hy0, hxw, hyh⟩ := (isValidPosition_iff g p.1 p.2).mp h
  unfold CMap.cells
  rw [List.mem_flatMap]
  refine ⟨p.2.toNat, List.mem_range.mpr (by omega), ?_⟩
  rw [List.mem_map]
  refine ⟨p.1.toNat, List.mem_range.mpr (by omega), ?_⟩
  apply Prod.ext
  · simp only; omega
  · simp only; omega

theorem length_cells (g : CMap) : g.cells.length = g.m_width.toNat * g.m_height.toNat := by
  unfold CMap.cells
  generalize g.m_height.toNat = h
  induction h with
  | zero => simp
  | succ n ih =>
    rw [List.range_succ, List.flatMap_append, List.length_append, ih]
    simp [Nat.mul_succ]

theorem unvisited_le (g : CMap) (visited : List (Int × Int)) :
    g.unvisited visited ≤ g.m_width.toNat * g.m_height.toNat := by
  unfold CMap.unvisited
  rw [← length_cells]
  exact List.length_filter_le _ _

theorem length_filter_le_of_imp {α : Type} (p q : α → Bool)
    (himp : ∀ a, p a = true → q a = true) :
    ∀ l : List α, (l.filter p).length ≤ (l.filter q).length := by
  intro l
  induction l with
  | nil => simp
  | cons a l ih =>
    cases hpa : p a <;> cases hqa : q a
    · simp only [List.filter_cons, hpa, hqa]; exact ih
    · simp only [List.filter_cons, hpa, hqa, List.length_cons]
      simp only [Bool.false_eq_true, if_false, if_true, List.length_cons]; omega
    · rw [himp a hpa] at hqa; cases hqa
    · simp only [List.filter_cons, hpa, hqa, if_true, List.length_cons]; omega

theorem length_filter_lt_of_imp {α : Type} (p q : α → Bool)
    (himp : ∀ a, p a = true → q a = true) (c : α) (hq : q c = true) (hp : p c = false) :
    ∀ l : List α, c ∈ l → (l.filter p).length < (l.filter q).length := by
  intro l
  induction l with
  | nil => intro h; cases h
  | cons a l ih =>
    intro hmem
    rcases List.mem_cons.mp hmem with rfl | hcl
    · have := length_filter_le_of_imp p q himp l
      simp only [List.filter_cons, hp, hq, if_true, List.length_cons, Bool.false_eq_true,
        if_false]
      omega
    · have := ih hcl
      cases hpa : p a <;> cases hqa : q a
      · simp only [List.filter_cons, hpa, hqa]; exact this
      · simp only [List.filter_cons, hpa, hqa, Bool.false_eq_true, if_false, if_true,
          List.length_cons]; omega
      · rw [himp a hpa] at hqa; cases hqa
      · simp only [List.filter_cons, hpa, hqa, if_true, List.length_cons]; omega

theorem filter_not_mem_cons_lt (c : Int × Int) (visited : List (Int × Int))
    (l : List (Int × Int)) (hmem : c ∈ l) (hv : c ∉ visited) :
    (l.filter (fun p => decide (p ∉ c :: visited))).length
      < (l.filter (fun p => decide (p ∉ visited))).length := by
  apply length_filter_lt_of_imp _ _ _ c _ _ l hmem
  · intro a ha
    simp only [decide_eq_true_eq] at ha ⊢
    exact fun h => ha (List.mem_cons_of_mem _ h)
  · simpa using hv
  · simp

theorem unvisited_cons_lt (g : CMap) (c : Int × Int) (visited : List (Int × Int))
    (hval : g.isValidPosition c.1 c.2 = true) (hv : c ∉ visited) :
    g.unvisited (c :: visited) < g.unvisited visited := by
  unfold CMap.unvisited
  exact filter_not_mem_cons_lt c visited g.cells (mem_cells g c hval) hv

/-- The loop returns when the bound on the iterations is at least the size of
the stack plus four times the number of cells not yet visited. -/
theorem loop_returns (g : CMap) (target : Nat) :
    ∀ (fuel : Nat) (stack visited result : List (Int × Int)),
      stack.length + 4 * g.unvisited visited ≤ fuel →
      ∃ r, CMainView.collectFillTiles.loop g target fuel stack visited result = some r := by
  intro fuel
  induction fuel with
  | zero =>
    intro stack visited result h
    cases stack with
    | nil => exact ⟨result, loop_nil _ _ _ _ _⟩
    | cons c rest => simp at h
  | succ fuel ih =>
    intro stack visited result h
    cases stack with
    | nil => exact ⟨result, loop_nil _ _ _ _ _⟩
    | cons c rest =>
      simp only [List.length_cons] at h
      by_cases hskip : ¬ InRegion g target c ∨ c ∈ visited
      · rw [loop_skip g target fuel c rest visited result hskip]
        exact ih rest visited result (by omega)
      · rw [not_or, not_not] at hskip
        obtain ⟨hreg, hvis⟩ := hskip
        rw [loop_visit g target fuel c rest visited result hreg hvis]
        apply ih
        have := unvisited_cons_lt g c visited hreg.1 hvis
        simp only [List.length_cons]
        omega

/-- A larger bound on the iterations does not change what the loop returns. -/
theorem loop_more_fuel (g : CMap) (target : Nat) :
    ∀ (fuel : Nat) (stack visited result r : List (Int × Int)),
      CMainView.collectFillTiles.loop g target fuel stack visited result = some r →
      ∀ fuel2, fuel ≤ fuel2 →
        CMainView.collectFillTiles.loop g target fuel2 stack visited result = some r := by
  intro fuel
  induction fuel with
  | zero =>
    intro stack visited result r hrun fuel2 _
    cases stack with
    | nil => rw [loop_nil] at hrun ⊢; exact hrun
    | cons c rest => simp [CMainView.collectFillTiles.loop] at hrun
  | succ fuel ih =>
    intro stack visited result r hrun fuel2 hle
    cases stack with
    | nil => rw [loop_nil] at hrun ⊢; exact hrun
    | cons c rest =>
      obtain ⟨k, rfl⟩ : ∃ k, fuel2 = k + 1 := ⟨fuel2 - 1, by omega⟩
      by_cases hskip : ¬ InRegion g target c ∨ c ∈ visited
      · rw [loop_skip g target _ c rest visited result hskip] at hrun ⊢
        exact ih _ _ _ _ hrun k (by omega)
      · rw [not_or, not_not] at hskip
        obtain ⟨hreg, hvis⟩ := hskip
        rw [loop_visit g target _ c rest visited result hreg hvis] at hrun ⊢
        exact ih _ _ _ _ hrun k (by omega)

/-- From the start cell the loop returns within `bound` iterations, and
`collectFillTiles` is what it returns. -/
theorem collectFillTiles_returns (g : CMap) (x y : Int) (target : Nat) :
    ∀ fuel, CMainView.collectFillTiles.bound g ≤ fuel →
      CMainView.collectFillTiles.loop g target fuel [(x, y)] [] []
        = some (CMainView.collectFillTiles (some g) x y target) := by
  have hb : [(x, y)].length + 4 * g.unvisited [] ≤ CMainView.collectFillTiles.bound g := by
    have := unvisited_le g []
    unfold CMainView.collectFillTiles.bound
    simp only [List.length_singleton]
    omega
  obtain ⟨r, hr⟩ := loop_returns g target (CMainView.collectFillTiles.bound g) [(x, y)] [] [] hb
  intro fuel hfuel
  rw [loop_more_fuel g target _ _ _ _ r hr fuel hfuel]
  unfold CMainView.collectFillTiles
  simp only
  rw [hr]
  rfl

theorem collectFillTiles_mem_iff (g : CMap) (x y : Int) (target : Nat) (p : Int × Int) :
    p ∈ CMainView.collectFillTiles (some g) x y target ↔ InComponent g target (x, y) p := by
  have hrun := collectFillTiles_returns g x y target _ (le_refl _)
  refine loop_component g target (x, y) _ [(x, y)] [] [] _ ?_ ?_ ?_ ?_ ?_ hrun p
  · intro p; simp
  · intro p hp; cases hp
  · intro q hq hreg
    rw [List.mem_singleton] at hq
    subst hq
    exact ⟨hreg, Relation.ReflTransGen.refl⟩
  · intro p hp; cases hp
  · intro _; exact Or.inr (List.mem_singleton.mpr rfl)


theorem inRegion_of_inComponent (g : CMap) (target : Nat) (seed p : Int × Int)
    (h : InComponent g target seed p) : InRegion g target p := by
  obtain ⟨hseed, hpath⟩ := h
  cases hpath with
  | refl => exact hseed
  | tail _ hstep => exact hstep.2.2

theorem tileAt_foldl_setTile (v : Nat) (tiles : List (Int × Int)) :
    ∀ (g : CMap), g.Invariant → ∀ a b : Int,
      (tiles.foldl (fun (m : CMap) (t : Int × Int) => m.setTile t.1 t.2 v) g).tileAt a b
        = if (a, b) ∈ tiles ∧ g.isValidPosition a b = true then v else g.tileAt a b := by
  induction tiles with
  | nil => intro g _ a b; simp
  | cons t rest ih =>
    intro g hinv a b
    rw [List.foldl_cons, ih (g.setTile t.1 t.2 v) (setTile_invariant g _ _ _ hinv) a b,
      setTile_isValidPosition]
    by_cases hval : g.isValidPosition a b = true
    · by_cases hrest : (a, b) ∈ rest
      · rw [if_pos ⟨hrest, hval⟩, if_pos ⟨List.mem_cons_of_mem _ hrest, hval⟩]
      · rw [if_neg (fun h => hrest h.1)]
        by_cases ht : (a, b) = t
        · rw [if_pos ⟨by rw [ht]; exact List.mem_cons_self _ _, hval⟩]
          have ha : a = t.1 := by rw [← ht]
          have hb : b = t.2 := by rw [← ht]
          subst ha hb
          exact tileAt_setTile_same g _ _ v hinv hval
        · rw [if_neg]
          · exact tileAt_setTile_other g t.1 t.2 v a b ht
          · rintro ⟨hmem, _⟩
            rcases List.mem_cons.mp hmem with h | h
            · exact ht h
            · exact hrest h
    · rw [if_neg (fun h => hval h.2), if_neg (fun h => hval h.2)]
      by_cases ht : (a, b) = t
      · have ha : a = t.1 := by rw [← ht]
        have hb : b = t.2 := by rw [← ht]
        subst ha hb
        unfold CMap.setTile
        simp [hval]
      · exact tileAt_setTile_other g t.1 t.2 v a b ht

theorem foldl_setTile_width (val : Int × Int → Nat) (tiles : List (Int × Int)) (g : CMap) :
    (tiles.foldl (fun (m : CMap) (t : Int × Int) => m.setTile t.1 t.2 (val t)) g).m_width
      = g.m_width := by
  rw [foldl_setTile_eq]

theorem foldl_setTile_height (val : Int × Int → Nat) (tiles : List (Int × Int)) (g : CMap) :
    (tiles.foldl (fun (m : CMap) (t : Int × Int) => m.setTile t.1 t.2 (val t)) g).m_height
      = g.m_height := by
  rw [foldl_setTile_eq]

theorem seed_mem_collectFillTiles (g : CMap) (x0 y0 : Int)
    (hv : g.isValidPosition x0 y0 = true) :
    (x0, y0) ∈ CMainView.collectFillTiles (some g) x0 y0 (g.tileAt x0 y0) :=
  (collectFillTiles_mem_iff g x0 y0 _ _).mpr ⟨⟨hv, rfl⟩, Relation.ReflTransGen.refl⟩

/-! ## C5, C6: flood fill -/

/-- C5: for every grid and every in-bounds start cell `(x0, y0)`, with
`target = tileAt(x0, y0)`, the loop of `collectFillTiles` returns, and the
positions it returns are exactly the cells of the 4-connected component of
`(x0, y0)` among the in-bounds cells holding `target`: a cell is returned if
and only if a path of horizontal and vertical steps through such cells joins
it to `(x0, y0)`.  So every returned cell is in bounds and holds `target`, the
start cell is returned, and every neighbour of a returned cell that is in
bounds and holds `target` is returned too (the set is maximal). -/
theorem collectFillTiles_exactly_component (g : CMap) (x0 y0 : Int)
    (hv : g.isValidPosition x0 y0 = true) :
    (∀ fuel, CMainView.collectFillTiles.bound g ≤ fuel →
      CMainView.collectFillTiles.loop g (g.tileAt x0 y0) fuel [(x0, y0)] [] []
        = some (CMainView.collectFillTiles (some g) x0 y0 (g.tileAt x0 y0))) ∧
    (∀ p, p ∈ CMainView.collectFillTiles (some g) x0 y0 (g.tileAt x0 y0)
      ↔ InComponent g (g.tileAt x0 y0) (x0, y0) p) ∧
    (x0, y0) ∈ CMainView.collectFillTiles (some g) x0 y0 (g.tileAt x0 y0) ∧
    (∀ p ∈ CMainView.collectFillTiles (some g) x0 y0 (g.tileAt x0 y0),
      g.isValidPosition p.1 p.2 = true ∧ g.tileAt p.1 p.2 = g.tileAt x0 y0) ∧
    (∀ p ∈ CMainView.collectFillTiles (some g) x0 y0 (g.tileAt x0 y0), ∀ q,
      Adjacent p q → g.isValidPosition q.1 q.2 = true → g.tileAt q.1 q.2 = g.tileAt x0 y0 →
      q ∈ CMainView.collectFillTiles (some g) x0 y0 (g.tileAt x0 y0)) := by
  refine ⟨collectFillTiles_returns g x0 y0 _, collectFillTiles_mem_iff g x0 y0 _,
    seed_mem_collectFillTiles g x0 y0 hv, ?_, ?_⟩
  · intro p hp
    exact inRegion_of_inComponent g _ _ p ((collectFillTiles_mem_iff g x0 y0 _ p).mp hp)
  · intro p hp q hadj hqv hqt
    have hc := (collectFillTiles_mem_iff g x0 y0 _ p).mp hp
    apply (collectFillTiles_mem_iff g x0 y0 _ q).mpr
    exact ⟨hc.1, Relation.ReflTransGen.tail hc.2
      ⟨inRegion_of_inComponent g _ _ p hc, hadj, hqv, hqt⟩⟩

/-- C5 on the scenario grid 2 x 2 `[1,1,2,1]` with start cell `(0,0)`: the
region is `(0,0)`, `(1,0)`, `(1,1)`. -/
theorem collectFillTiles_exactly_component_witness :
    gridFillScenario.isValidPosition 0 0 = true ∧
    CMainView.collectFillTiles (some gridFillScenario) 0 0 (gridFillScenario.tileAt 0 0)
      = [(0, 0), (1, 0), (1, 1)] ∧
    (0, 0) ∈ CMainView.collectFillTiles (some gridFillScenario) 0 0
      (gridFillScenario.tileAt 0 0) :=
  ⟨by decide, by decide,
    (collectFillTiles_exactly_component gridFillScenario 0 0 (by decide)).2.2.1⟩

/-- C6: for every grid, in-bounds start cell `(x0, y0)` and value `v` other
than `tileAt(x0, y0)`, the fill intent emits `fillApplied` with the region of
`collectFillTiles` and `v`; after `redo()` of the `FillCommand` built from it,
every cell of the 4-connected component of `(x0, y0)` among the cells holding
the original `tileAt(x0, y0)` holds `v`, every other cell holds the value it
had before, and width and height are unchanged. -/
theorem fill_changes_exactly_component (g : CMap) (x0 y0 : Int) (tileValue : Int)
    (hinv : g.Invariant) (hv : g.isValidPosition x0 y0 = true)
    (hne : toUInt32 tileValue ≠ g.tileAt x0 y0) :
    CMainView.paintTile (some g) TOOL_FILL x0 y0 tileValue
      = some (Signal.fillApplied (CMainView.collectFillTiles (some g) x0 y0 (g.tileAt x0 y0))
          (toUInt32 tileValue)) ∧
    (∀ p, InComponent g (g.tileAt x0 y0) (x0, y0) p →
      ((FillCommand.new g (CMainView.collectFillTiles (some g) x0 y0 (g.tileAt x0 y0))
        (toUInt32 tileValue)).redo g).tileAt p.1 p.2 = toUInt32 tileValue) ∧
    (∀ p, ¬ InComponent g (g.tileAt x0 y0) (x0, y0) p →
      ((FillCommand.new g (CMainView.collectFillTiles (some g) x0 y0 (g.tileAt x0 y0))
        (toUInt32 tileValue)).redo g).tileAt p.1 p.2 = g.tileAt p.1 p.2) ∧
    ((FillCommand.new g (CMainView.collectFillTiles (some g) x0 y0 (g.tileAt x0 y0))
        (toUInt32 tileValue)).redo g).m_width = g.m_width ∧
    ((FillCommand.new g (CMainView.collectFillTiles (some g) x0 y0 (g.tileAt x0 y0))
        (toUInt32 tileValue)).redo g).m_height = g.m_height := by
  have hseed := seed_mem_collectFillTiles g x0 y0 hv
  have hnonempty : (CMainView.collectFillTiles (some g) x0 y0 (g.tileAt x0 y0)).isEmpty
      = false := by
    cases hc : CMainView.collectFillTiles (some g) x0 y0 (g.tileAt x0 y0) with
    | nil => rw [hc] at hseed; cases hseed
    | cons a l => rfl
  obtain ⟨hx0, hy0, hxw, hyh⟩ := (isValidPosition_iff g x0 y0).mp hv
  have hsignal : CMainView.paintTile (some g) TOOL_FILL x0 y0 tileValue
      = some (Signal.fillApplied (CMainView.collectFillTiles (some g) x0 y0 (g.tileAt x0 y0))
          (toUInt32 tileValue)) := by
    unfold CMainView.paintTile
    simp only [CMap.width, CMap.height]
    rw [if_pos ⟨hx0, hxw, hy0, hyh⟩]
    simp only [if_true, if_pos (Ne.symm hne), hnonempty, Bool.not_false]
  have hredo : ∀ a b : Int,
      ((FillCommand.new g (CMainView.collectFillTiles (some g) x0 y0 (g.tileAt x0 y0))
          (toUInt32 tileValue)).redo g).tileAt a b
        = if (a, b) ∈ CMainView.collectFillTiles (some g) x0 y0 (g.tileAt x0 y0)
            ∧ g.isValidPosition a b = true
          then toUInt32 tileValue else g.tileAt a b :=
    tileAt_foldl_setTile (toUInt32 tileValue) _ g hinv
  refine ⟨hsignal, ?_, ?_, ?_, ?_⟩
  · intro p hp
    rw [hredo, if_pos]
    exact ⟨(collectFillTiles_mem_iff _ _ _ _ p).mpr hp,
      (inRegion_of_inComponent _ _ _ p hp).1⟩
  · intro p hp
    rw [hredo, if_neg]
    intro h
    exact hp ((collectFillTiles_mem_iff _ _ _ _ p).mp h.1)
  · exact foldl_setTile_width (fun _ => toUInt32 tileValue) _ g
  · exact foldl_setTile_height (fun _ => toUInt32 tileValue) _ g

/-- C6 on the scenario of the specification: on the grid 2 x 2 `[1,1,2,1]` the
fill at `(0,0)` with `9` gives `[9,9,2,9]`. -/
theorem fill_changes_exactly_component_witness :
    gridFillScenario.Invariant ∧ gridFillScenario.isValidPosition 0 0 = true ∧
    toUInt32 9 ≠ gridFillScenario.tileAt 0 0 ∧
    ((FillCommand.new gridFillScenario
        (CMainView.collectFillTiles (some gridFillScenario) 0 0 (gridFillScenario.tileAt 0 0))
        (toUInt32 9)).redo gridFillScenario).m_tiles = [9, 9, 2, 9] ∧
    CMainView.paintTile (some gridFillScenario) TOOL_FILL 0 0 9
      = some (Signal.fillApplied
          (CMainView.collectFillTiles (some gridFillScenario) 0 0 (gridFillScenario.tileAt 0 0))
          (toUInt32 9)) :=
  ⟨by decide, by decide, by decide, by decide,
    (fill_changes_exactly_component gridFillScenario 0 0 9
      (by decide) (by decide) (by decide)).1⟩


/-! ## Lemmas on the history -/

theorem CMainWindow.undoTimes_succ (s : CMainWindow) (n : Nat) :
    s.undoTimes (n + 1) = (s.undoTimes n).undo := by
  induction n generalizing s with
  | zero => rfl
  | succ n ih =>
    show CMainWindow.undoTimes s.undo (n + 1) = _
    rw [ih s.undo]
    rfl

theorem CMainWindow.undo_push (s : CMainWindow) (cmd : Command) :
    (s.push cmd).undo.m_map = cmd.undo (cmd.redo s.m_map) ∧
    (s.push cmd).undo.m_undoStack.undoStack = s.m_undoStack.undoStack := by
  unfold CMainWindow.undo CMainWindow.push
  simp

theorem CMainWindow.redo_push (s : CMainWindow) (cmd : Command) :
    (s.push cmd).redo = s.push cmd := by
  unfold CMainWindow.redo CMainWindow.push
  simp

/-- An intent leaves the window as it is or pushes one command, and undoing
that command on the grid it was applied to returns the grid. -/
theorem CMainWindow.intent_cases (s : CMainWindow) (i : Intent) :
    s.intent i = s ∨
    ∃ cmd : Command, s.intent i = s.push cmd ∧ cmd.undo (cmd.redo s.m_map) = s.m_map := by
  unfold CMainWindow.intent
  cases hp : CMainView.paintTile (some s.m_map) i.tool i.tileX i.tileY i.tileValue with
  | none => exact Or.inl rfl
  | some sig =>
    right
    cases sig with
    | tileChanged x y value =>
      exact ⟨_, rfl, Command.undo_redo_setTile s.m_map x y value⟩
    | fillApplied tiles value =>
      exact ⟨_, rfl, Command.undo_redo_fill s.m_map tiles value⟩

theorem CMainWindow.undo_of_append (t : CMainWindow) (stack : List Command) (cmd : Command)
    (h : t.m_undoStack.undoStack = stack ++ [cmd]) :
    t.undo.m_map = cmd.undo t.m_map ∧ t.undo.m_undoStack.undoStack = stack := by
  unfold CMainWindow.undo
  rw [h]
  simp

/-- After a sequence of intents the undo stack is the old one followed by the
pushed commands, and undoing as many times as commands were pushed returns the
grid and the undo stack. -/
theorem CMainWindow.intents_undo_all (is : List Intent) :
    ∀ s : CMainWindow, ∃ cmds : List Command,
      (s.intents is).m_undoStack.undoStack = s.m_undoStack.undoStack ++ cmds ∧
      ((s.intents is).undoTimes cmds.length).m_map = s.m_map ∧
      ((s.intents is).undoTimes cmds.length).m_undoStack.undoStack
        = s.m_undoStack.undoStack := by
  induction is with
  | nil => intro s; exact ⟨[], by simp [CMainWindow.intents], rfl, rfl⟩
  | cons i rest ih =>
    intro s
    have hstep : s.intents (i :: rest) = (s.intent i).intents rest := rfl
    rw [hstep]
    obtain ⟨cmds, h1, h2, h3⟩ := ih (s.intent i)
    rcases CMainWindow.intent_cases s i with hs | ⟨cmd, hs, hinv⟩
    · rw [hs] at h1 h2 h3 ⊢
      exact ⟨cmds, h1, h2, h3⟩
    · rw [hs] at h1 h2 h3 ⊢
      refine ⟨cmd :: cmds, ?_, ?_, ?_⟩
      · rw [h1]; simp [CMainWindow.push]
      · rw [List.length_cons, CMainWindow.undoTimes_succ]
        have hu := CMainWindow.undo_of_append _ s.m_undoStack.undoStack cmd
          (by rw [h3]; rfl)
        rw [hu.1, h2]
        exact hinv
      · rw [List.length_cons, CMainWindow.undoTimes_succ]
        exact (CMainWindow.undo_of_append _ s.m_undoStack.undoStack cmd (by rw [h3]; rfl)).2

/-! ## C7 - C10: commands and history -/

/-- C7: after any sequence of paint and fill intents, each pushing its
`SetTileCommand` or `FillCommand`, calling `undo` once for each pushed command
leaves the grid as it was before the sequence, cell for cell (and the undo
stack as it was).  The number of pushed commands is the growth of the undo
stack.  Scenario: on the 3 x 3 all-zero grid the fill at `(1,1)` with `5`
pushes one command and sets all nine cells to `5`, and one `undo` returns all
nine to `0`. -/
theorem intents_then_undo_all_restores_grid (s : CMainWindow) (is : List Intent) :
    s.count ≤ (s.intents is).count ∧
    (∃ cmds : List Command,
      (s.intents is).m_undoStack.undoStack = s.m_undoStack.undoStack ++ cmds ∧
      cmds.length = (s.intents is).count - s.count) ∧
    ((s.intents is).undoTimes ((s.intents is).count - s.count)).m_map = s.m_map ∧
    (∀ x y, ((s.intents is).undoTimes ((s.intents is).count - s.count)).m_map.tileAt x y
      = s.m_map.tileAt x y) ∧
    ((s.intents is).undoTimes ((s.intents is).count - s.count)).m_undoStack.undoStack
      = s.m_undoStack.undoStack ∧
    (((CMainWindow.fresh gridZero3).intents [⟨TOOL_FILL, 1, 1, 5⟩]).count = 1 ∧
      ((CMainWindow.fresh gridZero3).intents [⟨TOOL_FILL, 1, 1, 5⟩]).m_map.m_tiles
        = List.replicate 9 5 ∧
      ((CMainWindow.fresh gridZero3).intents [⟨TOOL_FILL, 1, 1, 5⟩]).undo.m_map.m_tiles
        = List.replicate 9 0) := by
  obtain ⟨cmds, h1, h2, h3⟩ := CMainWindow.intents_undo_all is s
  have hcount : (s.intents is).count - s.count = cmds.length := by
    unfold CMainWindow.count
    rw [h1]
    simp
  rw [hcount]
  refine ⟨?_, ⟨cmds, h1, rfl⟩, h2, ?_, h3, ?_⟩
  · unfold CMainWindow.count
    rw [h1]
    simp
  · intro x y
    rw [h2]
  · set_option maxRecDepth 100000 in decide

/-- C8: for every grid, every list of positions (repeated or out-of-bounds
positions included) and every new value, `redo()` followed by `undo()` of the
`FillCommand` constructed on the grid returns the grid of construction time,
so every cell has its value of construction time; and the stored `m_oldValues`
has the length of the positions list. -/
theorem fillCommand_redo_undo_restores (g : CMap) (tiles : List (Int × Int)) (v : Nat) :
    (FillCommand.new g tiles v).undo ((FillCommand.new g tiles v).redo g) = g ∧
    (∀ x y, ((FillCommand.new g tiles v).undo ((FillCommand.new g tiles v).redo g)).tileAt x y
      = g.tileAt x y) ∧
    (FillCommand.new g tiles v).m_tiles = tiles ∧
    (FillCommand.new g tiles v).m_oldValues.length = (FillCommand.new g tiles v).m_tiles.length := by
  refine ⟨fillCommand_undo_redo g tiles v, ?_, rfl, ?_⟩
  · intro x y
    rw [fillCommand_undo_redo]
  · rw [FillCommand.new_oldValues]
    simp [FillCommand.new]

/-- C9: for every grid, every position `(x, y)`, in or out of bounds, and every
new value, `redo()` followed by `undo()` of the `SetTileCommand` constructed on
the grid returns the grid of construction time; after `redo()` alone an
in-bounds `(x, y)` holds the new value, every other cell is unchanged, and so
are width and height. -/
theorem setTileCommand_redo_undo (g : CMap) (x y : Int) (v : Nat) (hinv : g.Invariant) :
    (SetTileCommand.new g x y v).undo ((SetTileCommand.new g x y v).redo g) = g ∧
    (g.isValidPosition x y = true → ((SetTileCommand.new g x y v).redo g).tileAt x y = v) ∧
    (∀ a b, (a, b) ≠ (x, y) →
      ((SetTileCommand.new g x y v).redo g).tileAt a b = g.tileAt a b) ∧
    ((SetTileCommand.new g x y v).redo g).m_width = g.m_width ∧
    ((SetTileCommand.new g x y v).redo g).m_height = g.m_height := by
  refine ⟨setTileCommand_undo_redo g x y v, ?_, ?_, ?_, ?_⟩
  · intro hv
    exact tileAt_setTile_same g x y v hinv hv
  · intro a b hne
    exact tileAt_setTile_other g x y v a b hne
  · exact setTile_width g x y v
  · exact setTile_height g x y v

/-- C9 on the 2 x 2 grid `[7,8,9,10]`, position `(1,0)`, new value `42`. -/
theorem setTileCommand_redo_undo_witness :
    gridTwoByTwo.Invariant ∧
    (SetTileCommand.new gridTwoByTwo 1 0 42).undo
      ((SetTileCommand.new gridTwoByTwo 1 0 42).redo gridTwoByTwo) = gridTwoByTwo :=
  ⟨by decide, (setTileCommand_redo_undo gridTwoByTwo 1 0 42 (by decide)).1⟩

/-- C10: in every history state, after any number `k` of undos, pushing a
command applies its `redo()` once to the grid, makes it the last command of
the undo stack (so the next `undo` undoes it) and empties the redo stack; a
`redo()` issued directly after the push changes neither the grid nor the
history. -/
theorem push_after_undos_discards_redo (s : CMainWindow) (k : Nat) (cmd : Command) :
    ((s.undoTimes k).push cmd).m_map = cmd.redo (s.undoTimes k).m_map ∧
    ((s.undoTimes k).push cmd).m_undoStack.undoStack
      = (s.undoTimes k).m_undoStack.undoStack ++ [cmd] ∧
    ((s.undoTimes k).push cmd).m_undoStack.undoStack.getLast? = some cmd ∧
    ((s.undoTimes k).push cmd).m_undoStack.redoStack = [] ∧
    ((s.undoTimes k).push cmd).redo = (s.undoTimes k).push cmd ∧
    ((s.undoTimes k).push cmd).undo.m_map = cmd.undo (cmd.redo (s.undoTimes k).m_map) := by
  refine ⟨rfl, rfl, ?_, rfl, CMainWindow.redo_push _ cmd, (CMainWindow.undo_push _ cmd).1⟩
  simp [CMainWindow.push]

/-! ## C12 - C14, C17: the accessors of `CMap` -/

/-- C12: for every grid and all integers `x`, `y`, `tileAt(x, y)` is `0` when
`x < 0`, `y < 0`, `x >= width` or `y >= height`; otherwise the row-major
index `y*width + x` lies inside the buffer and `tileAt(x, y)` is the element
stored there.  The function is total. -/
theorem tileAt_zero_or_stored (g : CMap) (hinv : g.Invariant) (x y : Int) :
    ((x < 0 ∨ y < 0 ∨ x ≥ g.width ∨ y ≥ g.height) → g.tileAt x y = 0) ∧
    (¬ (x < 0 ∨ y < 0 ∨ x ≥ g.width ∨ y ≥ g.height) →
      ∃ hi : (y * g.width + x).toNat < g.m_tiles.length,
        g.tileAt x y = g.m_tiles.get ⟨(y * g.width + x).toNat, hi⟩) := by
  constructor
  · intro hout
    have hv := (outside_iff g x y).mp hout
    unfold CMap.tileAt
    simp [hv]
  · intro hin
    have hv : g.isValidPosition x y = true := by
      by_contra hc
      exact hin ((outside_iff g x y).mpr hc)
    have hi := index_lt_length g x y hinv hv
    refine ⟨hi, ?_⟩
    unfold CMap.tileAt CMap.width
    rw [hv]
    simp only [Bool.not_true, Bool.false_eq_true, if_false]
    rw [List.getD_eq_getElem _ _ hi]
    rfl

/-- C12 on the 2 x 2 grid `[7,8,9,10]`: `tileAt(1, 1)` is the element at index
`3`, and `tileAt(2, 0)` is `0`. -/
theorem tileAt_zero_or_stored_witness :
    gridTwoByTwo.Invariant ∧ gridTwoByTwo.tileAt 1 1 = 10 ∧ gridTwoByTwo.tileAt 2 0 = 0 :=
  ⟨by decide, by decide,
    (tileAt_zero_or_stored gridTwoByTwo (by decide) 2 0).1 (by decide)⟩

/-- C13: for every grid, every value and every `(x, y)` outside
`[0,width) x [0,height)`, `setTile(x, y, value)` returns the grid as it was:
same width, same height, same cells. -/
theorem setTile_outside_no_effect (g : CMap) (x y : Int) (value : Nat)
    (hout : x < 0 ∨ y < 0 ∨ x ≥ g.width ∨ y ≥ g.height) :
    g.setTile x y value = g ∧
    (g.setTile x y value).m_width = g.m_width ∧
    (g.setTile x y value).m_height = g.m_height ∧
    (g.setTile x y value).m_tiles = g.m_tiles ∧
    ∀ a b, (g.setTile x y value).tileAt a b = g.tileAt a b := by
  have hv := (outside_iff g x y).mp hout
  have h : g.setTile x y value = g := by
    unfold CMap.setTile
    simp [hv]
  rw [h]
  exact ⟨rfl, rfl, rfl, rfl, fun _ _ => rfl⟩

/-- C13 on the 2 x 2 grid `[7,8,9,10]` and the position `(2, 0)`. -/
theorem setTile_outside_no_effect_witness :
    ((2 : Int) < 0 ∨ (0 : Int) < 0 ∨ (2 : Int) ≥ gridTwoByTwo.width
      ∨ (0 : Int) ≥ gridTwoByTwo.height) ∧
    gridTwoByTwo.setTile 2 0 5 = gridTwoByTwo :=
  ⟨by decide, (setTile_outside_no_effect gridTwoByTwo 2 0 5 (by decide)).1⟩

/-- C14: for every grid, every in-bounds `(x, y)` and every value, after
`setTile(x, y, value)` the cell `(x, y)` holds `value`, every other position
reads as before, and width and height are unchanged. -/
theorem setTile_inside_sets_one_cell (g : CMap) (x y : Int) (value : Nat)
    (hinv : g.Invariant) (hv : g.isValidPosition x y = true) :
    (g.setTile x y value).tileAt x y = value ∧
    (∀ a b, (a, b) ≠ (x, y) → (g.setTile x y value).tileAt a b = g.tileAt a b) ∧
    (g.setTile x y value).width = g.width ∧
    (g.setTile x y value).height = g.height :=
  ⟨tileAt_setTile_same g x y value hinv hv,
    fun a b hne => tileAt_setTile_other g x y value a b hne,
    setTile_width g x y value, setTile_height g x y value⟩

/-- C14 on the 2 x 2 grid `[7,8,9,10]`: `setTile(1, 0, 42)` gives
`[7,42,9,10]`. -/
theorem setTile_inside_sets_one_cell_witness :
    gridTwoByTwo.Invariant ∧ gridTwoByTwo.isValidPosition 1 0 = true ∧
    (gridTwoByTwo.setTile 1 0 42).m_tiles = [7, 42, 9, 10] ∧
    (gridTwoByTwo.setTile 1 0 42).tileAt 1 0 = 42 :=
  ⟨by decide, by decide, by decide,
    (setTile_inside_sets_one_cell gridTwoByTwo 1 0 42 (by decide) (by decide)).1⟩

theorem clear_invariant (g : CMap) (fill : Nat) (h : g.Invariant) : (g.clear fill).Invariant := by
  unfold CMap.Invariant CMap.clear at *
  simpa using h

/-- C17: for every grid and every fill value, after `clear(fill)` width and
height are unchanged and every in-bounds `(x, y)` holds `fill`. -/
theorem clear_fills_every_cell (g : CMap) (fill : Nat) (hinv : g.Invariant) :
    (g.clear fill).width = g.width ∧ (g.clear fill).height = g.height ∧
    (∀ x y, g.isValidPosition x y = true → (g.clear fill).tileAt x y = fill) ∧
    (∀ v ∈ (g.clear fill).m_tiles, v = fill) ∧
    (g.clear fill).m_tiles.length = g.m_tiles.length := by
  refine ⟨rfl, rfl, ?_, ?_, ?_⟩
  · intro x y hv
    have hi := index_lt_length g x y hinv hv
    have hv2 : (g.clear fill).isValidPosition x y = true := hv
    unfold CMap.tileAt
    rw [hv2]
    simp only [Bool.not_true, Bool.false_eq_true, if_false]
    have hw : (g.clear fill).m_width = g.m_width := rfl
    rw [hw]
    unfold CMap.clear
    simp only
    rw [List.getD_eq_getElem _ _ (by simpa using hi)]
    simp
  · intro v hv
    unfold CMap.clear at hv
    simp only [List.mem_map] at hv
    obtain ⟨_, _, h⟩ := hv
    exact h.symm
  · unfold CMap.clear
    simp

/-- C17 on the 2 x 2 grid `[7,8,9,10]`: `clear(3)` gives `[3,3,3,3]`. -/
theorem clear_fills_every_cell_witness :
    gridTwoByTwo.Invariant ∧ (gridTwoByTwo.clear 3).m_tiles = [3, 3, 3, 3] ∧
    (gridTwoByTwo.clear 3).width = gridTwoByTwo.width :=
  ⟨by decide, by decide, (clear_fills_every_cell gridTwoByTwo 3 (by decide)).1⟩


/-! ## C16: the buffer invariant -/

theorem build_invariant (g : CMap) (w h : Int) (fill : Nat) : (CMap.resize.build g w h fill).Invariant := by
  unfold CMap.Invariant
  rw [build_width, build_height, build_length]
  have h1 : (0 : Int) ≤ max 0 w := le_max_left 0 w
  have h2 : (0 : Int) ≤ max 0 h := le_max_left 0 h
  exact ⟨h1, h2, Int.toNat_of_nonneg (mul_nonneg h1 h2)⟩

theorem fromJson_invariant (g g2 : CMap) (obj : QJsonObject) (flag : Bool)
    (hinv : g.Invariant) (h : g.fromJson obj = some (flag, g2)) : g2.Invariant := by
  cases flag with
  | false =>
    rw [((fromJson_false_iff g obj g2).mp h).1]
    exact hinv
  | true =>
    obtain ⟨_, ho, hs, hg⟩ := (fromJson_true_iff g obj g2).mp h
    obtain ⟨hwh, _, _⟩ := intMul_eq_some _ _ _ ho
    rw [hg]
    unfold CMap.Invariant
    simp only [List.length_map]
    generalize (obj.value "width").toInt = w at *
    generalize (obj.value "height").toInt = ht at *
    generalize (obj.value "tiles").toArray.length = n at *
    refine ⟨le_max_left 0 w, le_max_left 0 ht, ?_⟩
    rcases le_or_lt 0 w with h1 | h1 <;> rcases le_or_lt 0 ht with h2 | h2
    · rw [max_eq_right h1, max_eq_right h2, hwh]
    · rw [max_eq_right h1, max_eq_left (le_of_lt h2), mul_zero]
      have : w * ht ≤ 0 := mul_nonpos_of_nonneg_of_nonpos h1 (le_of_lt h2)
      omega
    · rw [max_eq_left (le_of_lt h1), zero_mul]
      have : w * ht ≤ 0 := mul_nonpos_of_nonpos_of_nonneg (le_of_lt h1) h2
      omega
    · omega

/-- Every reachable grid satisfies the buffer invariant, and the product of
its width and height fits an `int`. -/
theorem reachable_grid_fits (g : CMap) (h : g.Reachable) :
    g.Invariant ∧ g.m_width * g.m_height ≤ INT_MAX := by
  induction h with
  | default => decide
  | mk2 w h hr =>
    obtain ⟨hfit, hg⟩ := (resize_eq_some_iff _ _ w h 0).mp hr
    rw [hg]
    exact ⟨build_invariant _ w h 0, hfit⟩
  | setTile x y value _ ih =>
    refine ⟨setTile_invariant _ x y value ih.1, ?_⟩
    unfold CMap.setTile
    split
    · exact ih.2
    · exact ih.2
  | resize w h fill _ hr _ =>
    obtain ⟨hfit, hg⟩ := (resize_eq_some_iff _ _ w h fill).mp hr
    rw [hg]
    exact ⟨build_invariant _ w h fill, hfit⟩
  | clear fill _ ih => exact ⟨clear_invariant _ fill ih.1, ih.2⟩
  | fromJson obj flag _ hload ih =>
    refine ⟨fromJson_invariant _ _ obj flag ih.1 hload, ?_⟩
    cases flag with
    | false =>
      rw [((fromJson_false_iff _ obj _).mp hload).1]
      exact ih.2
    | true =>
      obtain ⟨_, ho, _, hg⟩ := (fromJson_true_iff _ obj _).mp hload
      have hres := resize_of_intMul CMap.default _ _ _ 0 ho
      rw [hg]
      exact ((resize_eq_some_iff _ _ _ _ 0).mp hres).1

/-- C19: for every grid, every tile position `(x, y)` and every value equal to
`tileAt(x, y)`, a fill intent emits no signal (no region is passed on, no
command is created) and leaves the grid and the history as they were. -/
theorem fill_same_value_no_effect (s : CMainWindow) (x y : Int) (tileValue : Int)
    (heq : s.m_map.tileAt x y = toUInt32 tileValue) :
    CMainView.paintTile (some s.m_map) TOOL_FILL x y tileValue = none ∧
    s.intent ⟨TOOL_FILL, x, y, tileValue⟩ = s ∧
    (s.intent ⟨TOOL_FILL, x, y, tileValue⟩).m_map = s.m_map ∧
    (s.intent ⟨TOOL_FILL, x, y, tileValue⟩).m_undoStack = s.m_undoStack := by
  have hp : CMainView.paintTile (some s.m_map) TOOL_FILL x y tileValue = none := by
    unfold CMainView.paintTile
    simp only
    split
    · simp [heq]
    · rfl
  have hi : s.intent ⟨TOOL_FILL, x, y, tileValue⟩ = s := by
    unfold CMainWindow.intent
    simp only
    rw [hp]
    rfl
  rw [hi]
  exact ⟨hp, rfl, rfl, rfl⟩

/-- C19 on the fill scenario grid `[1,1,2,1]`: filling `(0, 0)` with `1`. -/
theorem fill_same_value_no_effect_witness :
    gridFillScenario.tileAt 0 0 = toUInt32 1 ∧
    (CMainWindow.fresh gridFillScenario).intent ⟨TOOL_FILL, 0, 0, 1⟩
      = CMainWindow.fresh gridFillScenario :=
  ⟨by decide,
    (fill_same_value_no_effect (CMainWindow.fresh gridFillScenario) 0 0 1 (by decide)).2.1⟩

/-- The result of the loop has no position twice when the result it starts
from has none and holds visited positions only. -/
theorem loop_nodup (g : CMap) (target : Nat) :
    ∀ (fuel : Nat) (stack visited result r : List (Int × Int)),
      result.Nodup → (∀ p ∈ result, p ∈ visited) →
      CMainView.collectFillTiles.loop g target fuel stack visited result = some r →
      r.Nodup := by
  intro fuel
  induction fuel with
  | zero =>
    intro stack visited result r hnd _ hrun
    cases stack with
    | nil =>
      rw [loop_nil] at hrun
      injection hrun with hrun
      rw [← hrun]
      exact hnd
    | cons c rest => simp [CMainView.collectFillTiles.loop] at hrun
  | succ fuel ih =>
    intro stack visited result r hnd hsub hrun
    cases stack with
    | nil =>
      rw [loop_nil] at hrun
      injection hrun with hrun
      rw [← hrun]
      exact hnd
    | cons c rest =>
      by_cases hskip : ¬ InRegion g target c ∨ c ∈ visited
      · rw [loop_skip g target fuel c rest visited result hskip] at hrun
        exact ih rest visited result r hnd hsub hrun
      · rw [not_or, not_not] at hskip
        obtain ⟨hreg, hvis⟩ := hskip
        rw [loop_visit g target fuel c rest visited result hreg hvis] at hrun
        refine ih _ (c :: visited) (result ++ [c]) r ?_ ?_ hrun
        · rw [List.nodup_append]
          refine ⟨hnd, List.nodup_singleton c, ?_⟩
          intro a ha hb
          rw [List.mem_singleton] at hb
          subst hb
          exact hvis (hsub a ha)
        · intro p hp
          rcases List.mem_append.mp hp with h | h
          · exact List.mem_cons_of_mem _ (hsub p h)
          · rw [List.mem_singleton] at h
            rw [h]
            exact List.mem_cons_self _ _

/-- C20: for every grid (and for the null map), every start cell and every
target value, the list returned by `collectFillTiles` contains no position
twice. -/
theorem collectFillTiles_nodup (m_map : Option CMap) (x y : Int) (targetTile : Nat) :
    (CMainView.collectFillTiles m_map x y targetTile).Nodup := by
  cases m_map with
  | none => exact List.nodup_nil
  | some g =>
    exact loop_nodup g targetTile _ [(x, y)] [] [] _ List.nodup_nil
      (fun p hp => by cases hp) (collectFillTiles_returns g x y targetTile _ (le_refl _))


/-! ## C15: `CMap::resize` -/

theorem length_foldl_set_at {α : Type} (ix : α → Nat) (val : α → Nat) (ts : List α) :
    ∀ l : List Nat,
      (ts.foldl (fun (l : List Nat) (t : α) => l.set (ix t) (val t)) l).length = l.length := by
  induction ts with
  | nil => intro l; rfl
  | cons t rest ih => intro l; rw [List.foldl_cons, ih]; simp

/-- An index that no write of the run has is read as before. -/
theorem getElem?_foldl_set_at_other {α : Type} (ix : α → Nat) (val : α → Nat) (ts : List α)
    (k : Nat) (hk : ∀ t ∈ ts, ix t ≠ k) :
    ∀ l : List Nat,
      (ts.foldl (fun (l : List Nat) (t : α) => l.set (ix t) (val t)) l)[k]? = l[k]? := by
  induction ts with
  | nil => intro l; rfl
  | cons t rest ih =>
    intro l
    rw [List.foldl_cons, ih (fun u hu => hk u (List.mem_cons_of_mem _ hu))]
    exact List.getElem?_set_ne (hk t (List.mem_cons_self _ _))

/-- When writes at the same index write the same value, the index of a write
of the run holds the value of that write. -/
theorem getElem?_foldl_set_at_mem {α : Type} (ix : α → Nat) (val : α → Nat) (ts : List α)
    (hcons : ∀ t ∈ ts, ∀ u ∈ ts, ix t = ix u → val t = val u) :
    ∀ (l : List Nat) (t : α), t ∈ ts → ix t < l.length →
      (ts.foldl (fun (l : List Nat) (t : α) => l.set (ix t) (val t)) l)[ix t]?
        = some (val t) := by
  induction ts with
  | nil => intro l t ht; cases ht
  | cons a rest ih =>
    intro l t ht hlt
    rw [List.foldl_cons]
    have hcons2 : ∀ t ∈ rest, ∀ u ∈ rest, ix t = ix u → val t = val u :=
      fun t ht u hu => hcons t (List.mem_cons_of_mem _ ht) u (List.mem_cons_of_mem _ hu)
    by_cases hex : ∃ u ∈ rest, ix u = ix t
    · obtain ⟨u, hu, hiu⟩ := hex
      have := ih hcons2 (l.set (ix a) (val a)) u hu (by rw [List.length_set, hiu]; exact hlt)
      rw [hiu] at this
      rw [this, hcons u (List.mem_cons_of_mem _ hu) t ht hiu]
    · have hne : ∀ u ∈ rest, ix u ≠ ix t := fun u hu he => hex ⟨u, hu, he⟩
      rw [getElem?_foldl_set_at_other ix val rest (ix t) hne]
      rcases List.mem_cons.mp ht with rfl | hr
      · exact List.getElem?_set_self hlt
      · exact absurd rfl (hne t hr)

/-- The two nested loops of `CMap::resize` are one run of writes over
`CMap.resize.positions`. -/
theorem resize_loops_eq (old : CMap) (newWidth : Int) (copyWidth : Nat) (ys : List Nat) :
    ∀ l : List Nat,
      ys.foldl (fun (acc : List Nat) (y : Nat) =>
          (List.range copyWidth).foldl
            (fun (acc : List Nat) (x : Nat) => acc.set ((y : Int) * newWidth + (x : Int)).toNat
              (old.m_tiles.getD ((y : Int) * old.m_width + (x : Int)).toNat 0)) acc) l
        = (ys.flatMap (fun (y : Nat) => (List.range copyWidth).map (fun (x : Nat) => (x, y)))).foldl
            (fun (l : List Nat) (t : Nat × Nat) =>
              l.set ((t.2 : Int) * newWidth + (t.1 : Int)).toNat
                (old.m_tiles.getD ((t.2 : Int) * old.m_width + (t.1 : Int)).toNat 0)) l := by
  induction ys with
  | nil => intro l; rfl
  | cons y rest ih =>
    intro l
    rw [List.foldl_cons, ih, List.flatMap_cons, List.foldl_append, List.foldl_map]

theorem build_tiles_eq (g : CMap) (w h : Int) (fill : Nat) :
    (CMap.resize.build g w h fill).m_tiles
      = (CMap.resize.positions (min g.m_width (max 0 w)).toNat
            (min g.m_height (max 0 h)).toNat).foldl
          (fun (l : List Nat) (t : Nat × Nat) =>
            l.set ((t.2 : Int) * max 0 w + (t.1 : Int)).toNat
              (g.m_tiles.getD ((t.2 : Int) * g.m_width + (t.1 : Int)).toNat 0))
          (List.replicate (max 0 w * max 0 h).toNat fill) := by
  unfold CMap.resize.build CMap.resize.positions
  simp only [CMap.resize.copyRow]
  exact resize_loops_eq g (max 0 w) _ _ _

theorem mem_positions (cw ch : Nat) (t : Nat × Nat) :
    t ∈ CMap.resize.positions cw ch ↔ t.1 < cw ∧ t.2 < ch := by
  unfold CMap.resize.positions
  simp only [List.mem_flatMap, List.mem_map, List.mem_range]
  constructor
  · rintro ⟨y, hy, x, hx, rfl⟩
    exact ⟨hx, hy⟩
  · rintro ⟨hx, hy⟩
    exact ⟨t.2, hy, t.1, hx, rfl⟩

/-- The grid that the body of `CMap::resize` builds has width `max(0, w2)` and
height `max(0, h2)`, keeps the cells of the common rectangle and holds `fill`
in every other cell. -/
theorem build_keeps_overlap_fills_rest (g : CMap) (w2 h2 : Int) (fill : Nat) :
    (CMap.resize.build g w2 h2 fill).width = max 0 w2 ∧
    (CMap.resize.build g w2 h2 fill).height = max 0 h2 ∧
    (∀ x y : Int, 0 ≤ x → x < min g.width w2 → 0 ≤ y → y < min g.height h2 →
      (CMap.resize.build g w2 h2 fill).tileAt x y = g.tileAt x y) ∧
    (∀ x y : Int, (CMap.resize.build g w2 h2 fill).isValidPosition x y = true →
      ¬ (0 ≤ x ∧ x < min g.width w2 ∧ 0 ≤ y ∧ y < min g.height h2) →
      (CMap.resize.build g w2 h2 fill).tileAt x y = fill) := by
  have hw : (CMap.resize.build g w2 h2 fill).m_width = max 0 w2 := rfl
  have hh : (CMap.resize.build g w2 h2 fill).m_height = max 0 h2 := rfl
  have hinj : ∀ t ∈ CMap.resize.positions (min g.m_width (max 0 w2)).toNat
        (min g.m_height (max 0 h2)).toNat,
      ∀ u ∈ CMap.resize.positions (min g.m_width (max 0 w2)).toNat
        (min g.m_height (max 0 h2)).toNat,
      ((t.2 : Int) * max 0 w2 + (t.1 : Int)).toNat = ((u.2 : Int) * max 0 w2 + (u.1 : Int)).toNat →
      t = u := by
    intro t ht u hu he
    rw [mem_positions] at ht hu
    have hvt : (CMap.resize.build g w2 h2 fill).isValidPosition (t.1 : Int) (t.2 : Int) = true := by
      rw [isValidPosition_iff, hw, hh]
      have := min_le_right g.m_width (max 0 w2)
      have := min_le_right g.m_height (max 0 h2)
      omega
    have hvu : (CMap.resize.build g w2 h2 fill).isValidPosition (u.1 : Int) (u.2 : Int) = true := by
      rw [isValidPosition_iff, hw, hh]
      have := min_le_right g.m_width (max 0 w2)
      have := min_le_right g.m_height (max 0 h2)
      omega
    have := index_injective (CMap.resize.build g w2 h2 fill) _ _ _ _ hvt hvu (by rw [hw]; exact he)
    apply Prod.ext
    · exact Int.ofNat.inj this.1
    · exact Int.ofNat.inj this.2
  refine ⟨rfl, rfl, ?_, ?_⟩
  · intro x y hx0 hxw hy0 hyh
    unfold CMap.width at hxw
    unfold CMap.height at hyh
    have hxw1 : x < g.m_width := lt_of_lt_of_le hxw (min_le_left _ _)
    have hxw2 : x < w2 := lt_of_lt_of_le hxw (min_le_right _ _)
    have hyh1 : y < g.m_height := lt_of_lt_of_le hyh (min_le_left _ _)
    have hyh2 : y < h2 := lt_of_lt_of_le hyh (min_le_right _ _)
    have hvnew : (CMap.resize.build g w2 h2 fill).isValidPosition x y = true := by
      rw [isValidPosition_iff, hw, hh]
      exact ⟨hx0, hy0, lt_of_lt_of_le hxw2 (le_max_right 0 w2),
        lt_of_lt_of_le hyh2 (le_max_right 0 h2)⟩
    have hvold : g.isValidPosition x y = true := by
      rw [isValidPosition_iff]
      exact ⟨hx0, hy0, hxw1, hyh1⟩
    have hidx := index_lt_length _ x y (build_invariant g w2 h2 fill) hvnew
    have hmem : (x.toNat, y.toNat) ∈ CMap.resize.positions (min g.m_width (max 0 w2)).toNat
        (min g.m_height (max 0 h2)).toNat := by
      rw [mem_positions]
      have hm1 : x < min g.m_width (max 0 w2) :=
        lt_min hxw1 (lt_of_lt_of_le hxw2 (le_max_right 0 w2))
      have hm2 : y < min g.m_height (max 0 h2) :=
        lt_min hyh1 (lt_of_lt_of_le hyh2 (le_max_right 0 h2))
      constructor
      · simp only; omega
      · simp only; omega
    have hxc : ((x.toNat : Nat) : Int) = x := Int.toNat_of_nonneg hx0
    have hyc : ((y.toNat : Nat) : Int) = y := Int.toNat_of_nonneg hy0
    have hget := getElem?_foldl_set_at_mem
      (fun (t : Nat × Nat) => ((t.2 : Int) * max 0 w2 + (t.1 : Int)).toNat)
      (fun (t : Nat × Nat) => g.m_tiles.getD ((t.2 : Int) * g.m_width + (t.1 : Int)).toNat 0)
      _ (fun t ht u hu he => by rw [hinj t ht u hu he])
      (List.replicate (max 0 w2 * max 0 h2).toNat fill) (x.toNat, y.toNat) hmem
      (by
        simp only [hxc, hyc, List.length_replicate]
        rw [build_length, hw] at hidx
        exact hidx)
    simp only [hxc, hyc] at hget
    rw [← build_tiles_eq] at hget
    unfold CMap.tileAt
    rw [hvnew, hvold, hw]
    simp only [Bool.not_true, Bool.false_eq_true, if_false, List.getD_eq_getElem?_getD]
    rw [hget]
    simp
  · intro x y hvnew hnot
    have hidx := index_lt_length _ x y (build_invariant g w2 h2 fill) hvnew
    obtain ⟨hx0, hy0, hxw, hyh⟩ := (isValidPosition_iff _ x y).mp hvnew
    rw [hw] at hxw
    rw [hh] at hyh
    have hother := getElem?_foldl_set_at_other
      (fun (t : Nat × Nat) => ((t.2 : Int) * max 0 w2 + (t.1 : Int)).toNat)
      (fun (t : Nat × Nat) => g.m_tiles.getD ((t.2 : Int) * g.m_width + (t.1 : Int)).toNat 0)
      (CMap.resize.positions (min g.m_width (max 0 w2)).toNat (min g.m_height (max 0 h2)).toNat)
      (y * max 0 w2 + x).toNat
      (by
        intro t ht he
        have htp := (mem_positions _ _ t).mp ht
        have hvt : (CMap.resize.build g w2 h2 fill).isValidPosition (t.1 : Int) (t.2 : Int) = true := by
          rw [isValidPosition_iff, hw, hh]
          have := min_le_right g.m_width (max 0 w2)
          have := min_le_right g.m_height (max 0 h2)
          omega
        have := index_injective (CMap.resize.build g w2 h2 fill) _ _ _ _ hvt hvnew (by rw [hw]; exact he)
        apply hnot
        unfold CMap.width CMap.height
        have hm1 := min_le_left g.m_width (max 0 w2)
        have hm2 := min_le_left g.m_height (max 0 h2)
        have h3 : 0 < w2 := by
          rcases le_or_lt w2 0 with h | h
          · rw [max_eq_left h] at hxw; omega
          · exact h
        have h4 : 0 < h2 := by
          rcases le_or_lt h2 0 with h | h
          · rw [max_eq_left h] at hyh; omega
          · exact h
        rw [max_eq_right (le_of_lt h3)] at htp
        rw [max_eq_right (le_of_lt h4)] at htp
        refine ⟨hx0, ?_, hy0, ?_⟩
        · rw [← this.1]; omega
        · rw [← this.2]; omega)
      (List.replicate (max 0 w2 * max 0 h2).toNat fill)
    rw [← build_tiles_eq] at hother
    unfold CMap.tileAt
    rw [hvnew, hw]
    simp only [Bool.not_true, Bool.false_eq_true, if_false, List.getD_eq_getElem?_getD]
    rw [hother]
    rw [build_length, hw] at hidx
    rw [List.getElem?_replicate]
    simp [hidx]

/-- C15 as stated fails: not for all integers.  On the 2 x 2 grid
`[7, 8, 9, 10]` the call `resize(65536, 65536, 0)` asks for a buffer of
`65536 * 65536 = 2^32` cells; that product of two `int`s overflows, and the
call has no result. -/
theorem resize_overflow_no_result :
    gridTwoByTwo.Invariant ∧
    intMul (max 0 65536) (max 0 65536) = none ∧
    gridTwoByTwo.resize 65536 65536 0 = none := by
  decide

/-- C15 (amended): for every grid of size `w1 x h1`, every fill and all
integers `w2`, `h2` whose buffer size `max(0, w2) * max(0, h2)` fits an `int`,
`resize(w2, h2, fill)` has a result; after it the grid has width `max(0, w2)`
and height `max(0, h2)`; `tileAt(x, y)` is the value before the resize for
every `(x, y)` with `0 <= x < min(w1, w2)` and `0 <= y < min(h1, h2)`, and it
is `fill` for every other `(x, y)` inside the new bounds. -/
theorem resize_keeps_overlap_fills_rest (g : CMap) (w2 h2 : Int) (fill : Nat)
    (hfit : max 0 w2 * max 0 h2 ≤ INT_MAX) :
    ∃ g2 : CMap, g.resize w2 h2 fill = some g2 ∧
      g2.width = max 0 w2 ∧
      g2.height = max 0 h2 ∧
      (∀ x y : Int, 0 ≤ x → x < min g.width w2 → 0 ≤ y → y < min g.height h2 →
        g2.tileAt x y = g.tileAt x y) ∧
      (∀ x y : Int, g2.isValidPosition x y = true →
        ¬ (0 ≤ x ∧ x < min g.width w2 ∧ 0 ≤ y ∧ y < min g.height h2) →
        g2.tileAt x y = fill) :=
  ⟨CMap.resize.build g w2 h2 fill, resize_eq_some g w2 h2 fill hfit,
    build_keeps_overlap_fills_rest g w2 h2 fill⟩

/-- C15 (amended) on the 2 x 2 grid `[7, 8, 9, 10]` resized to 3 x 1 with
fill `4`: the first row is kept and the new cell holds the fill. -/
theorem resize_keeps_overlap_fills_rest_witness :
    max 0 (3 : Int) * max 0 1 ≤ INT_MAX ∧
    gridTwoByTwo.resize 3 1 4 = some (CMap.mk 3 1 [7, 8, 4]) ∧
    ∃ g2 : CMap, gridTwoByTwo.resize 3 1 4 = some g2 ∧
      g2.width = max 0 3 ∧
      g2.height = max 0 1 ∧
      (∀ x y : Int, 0 ≤ x → x < min gridTwoByTwo.width 3 → 0 ≤ y →
        y < min gridTwoByTwo.height 1 → g2.tileAt x y = gridTwoByTwo.tileAt x y) ∧
      (∀ x y : Int, g2.isValidPosition x y = true →
        ¬ (0 ≤ x ∧ x < min gridTwoByTwo.width 3 ∧ 0 ≤ y ∧ y < min gridTwoByTwo.height 1) →
        g2.tileAt x y = 4) :=
  ⟨by decide, by decide, resize_keeps_overlap_fills_rest gridTwoByTwo 3 1 4 (by decide)⟩


/-! ## C18: the paint tool -/

theorem paintTile_paint_inside (g : CMap) (x y : Int) (tileValue : Int)
    (hv : g.isValidPosition x y = true) :
    CMainView.paintTile (some g) TOOL_PAINT x y tileValue
      = if g.tileAt x y ≠ toUInt32 tileValue
        then some (Signal.tileChanged x y (toUInt32 tileValue)) else none := by
  obtain ⟨hx0, hy0, hxw, hyh⟩ := (isValidPosition_iff g x y).mp hv
  unfold CMainView.paintTile
  simp only [CMap.width, CMap.height]
  rw [if_pos ⟨hx0, hxw, hy0, hyh⟩, if_neg (by decide)]

theorem paintTile_outside (g : CMap) (tool : Int) (x y : Int) (tileValue : Int)
    (hv : ¬ g.isValidPosition x y = true) :
    CMainView.paintTile (some g) tool x y tileValue = none := by
  unfold CMainView.paintTile
  simp only [CMap.width, CMap.height]
  rw [if_neg]
  intro h
  exact hv ((isValidPosition_iff g x y).mpr ⟨h.1, h.2.2.1, h.2.1, h.2.2.2⟩)

/-- C18 as stated fails: on the 2 x 2 grid `[7,8,9,10]` the position `(5, 5)`
reads `tileAt = 0`, which differs from the value `3`, yet a paint intent there
emits no signal and pushes no command. -/
theorem paint_outside_creates_no_command :
    gridTwoByTwo.tileAt 5 5 ≠ toUInt32 3 ∧
    CMainView.paintTile (some gridTwoByTwo) TOOL_PAINT 5 5 3 = none ∧
    ((CMainWindow.fresh gridTwoByTwo).intent ⟨TOOL_PAINT, 5, 5, 3⟩).count = 0 := by
  decide

/-- C18 (amended): for every grid, every in-bounds tile position `(x, y)` and
every value, a paint intent creates no command and changes nothing when
`tileAt(x, y)` equals the value, and otherwise pushes exactly one
`SetTileCommand` for `(x, y)` with that value, after which the cell holds the
value and the same paint intent creates no second command.  For a position
outside the grid a paint intent creates no command, whatever the value. -/
theorem paint_inside_one_command (s : CMainWindow) (x y : Int) (tileValue : Int)
    (hinv : s.m_map.Invariant) :
    (s.m_map.isValidPosition x y = true → s.m_map.tileAt x y = toUInt32 tileValue →
      CMainView.paintTile (some s.m_map) TOOL_PAINT x y tileValue = none ∧
      s.intent ⟨TOOL_PAINT, x, y, tileValue⟩ = s) ∧
    (s.m_map.isValidPosition x y = true → s.m_map.tileAt x y ≠ toUInt32 tileValue →
      CMainView.paintTile (some s.m_map) TOOL_PAINT x y tileValue
        = some (Signal.tileChanged x y (toUInt32 tileValue)) ∧
      s.intent ⟨TOOL_PAINT, x, y, tileValue⟩
        = s.push (Command.setTile (SetTileCommand.new s.m_map x y (toUInt32 tileValue))) ∧
      (s.intent ⟨TOOL_PAINT, x, y, tileValue⟩).m_undoStack.undoStack
        = s.m_undoStack.undoStack
          ++ [Command.setTile ⟨x, y, s.m_map.tileAt x y, toUInt32 tileValue⟩] ∧
      (s.intent ⟨TOOL_PAINT, x, y, tileValue⟩).count = s.count + 1 ∧
      (s.intent ⟨TOOL_PAINT, x, y, tileValue⟩).m_map.tileAt x y = toUInt32 tileValue ∧
      (s.intent ⟨TOOL_PAINT, x, y, tileValue⟩).intent ⟨TOOL_PAINT, x, y, tileValue⟩
        = s.intent ⟨TOOL_PAINT, x, y, tileValue⟩) ∧
    (¬ s.m_map.isValidPosition x y = true →
      CMainView.paintTile (some s.m_map) TOOL_PAINT x y tileValue = none ∧
      s.intent ⟨TOOL_PAINT, x, y, tileValue⟩ = s) := by
  refine ⟨?_, ?_, ?_⟩
  · intro hv heq
    have hp : CMainView.paintTile (some s.m_map) TOOL_PAINT x y tileValue = none := by
      rw [paintTile_paint_inside _ x y tileValue hv, if_neg (not_not.mpr heq)]
    refine ⟨hp, ?_⟩
    unfold CMainWindow.intent
    simp only
    rw [hp]
    rfl
  · intro hv hne
    have hp : CMainView.paintTile (some s.m_map) TOOL_PAINT x y tileValue
        = some (Signal.tileChanged x y (toUInt32 tileValue)) := by
      rw [paintTile_paint_inside _ x y tileValue hv, if_pos hne]
    have hi : s.intent ⟨TOOL_PAINT, x, y, tileValue⟩
        = s.push (Command.setTile (SetTileCommand.new s.m_map x y (toUInt32 tileValue))) := by
      unfold CMainWindow.intent
      simp only
      rw [hp]
      rfl
    have hmap : (s.intent ⟨TOOL_PAINT, x, y, tileValue⟩).m_map
        = s.m_map.setTile x y (toUInt32 tileValue) := by
      rw [hi]
      rfl
    have hcell : (s.intent ⟨TOOL_PAINT, x, y, tileValue⟩).m_map.tileAt x y
        = toUInt32 tileValue := by
      rw [hmap]
      exact tileAt_setTile_same _ x y _ hinv hv
    have hv2 : (s.intent ⟨TOOL_PAINT, x, y, tileValue⟩).m_map.isValidPosition x y = true := by
      rw [hmap, setTile_isValidPosition]
      exact hv
    refine ⟨hp, hi, ?_, ?_, hcell, ?_⟩
    · rw [hi]
      rfl
    · rw [hi]
      simp [CMainWindow.count, CMainWindow.push]
    · have hp2 : CMainView.paintTile (some (s.intent ⟨TOOL_PAINT, x, y, tileValue⟩).m_map)
          TOOL_PAINT x y tileValue = none := by
        rw [paintTile_paint_inside _ x y tileValue hv2, if_neg (not_not.mpr hcell)]
      generalize s.intent ⟨TOOL_PAINT, x, y, tileValue⟩ = s1 at hp2 ⊢
      unfold CMainWindow.intent
      simp only
      rw [hp2]
      rfl
  · intro hv
    have hp := paintTile_outside s.m_map TOOL_PAINT x y tileValue hv
    refine ⟨hp, ?_⟩
    unfold CMainWindow.intent
    simp only
    rw [hp]
    rfl

/-- C18 (amended) on the 2 x 2 grid `[7,8,9,10]`: painting `42` at `(1, 0)`
pushes one command, and painting it again pushes none. -/
theorem paint_inside_one_command_witness :
    gridTwoByTwo.Invariant ∧
    ((CMainWindow.fresh gridTwoByTwo).intent ⟨TOOL_PAINT, 1, 0, 42⟩).count = 1 ∧
    (((CMainWindow.fresh gridTwoByTwo).intent ⟨TOOL_PAINT, 1, 0, 42⟩).intent
      ⟨TOOL_PAINT, 1, 0, 42⟩).count = 1 ∧
    CMainView.paintTile (some gridTwoByTwo) TOOL_PAINT 1 0 42
      = some (Signal.tileChanged 1 0 (toUInt32 42)) :=
  ⟨by decide, by decide, by decide,
    ((paint_inside_one_command (CMainWindow.fresh gridTwoByTwo) 1 0 42 (by decide)).2.1
      (by decide) (by decide)).1⟩


/-! ## C11: the modified flag -/

theorem stackChanged_window (s : Session) (w : CMainWindow) : (s.stackChanged w).window = w := by
  unfold Session.stackChanged Session.onCleanChanged
  split
  · split <;> rfl
  · rfl

theorem positionDiffers_iff (s : Session) :
    s.positionDiffers ↔ s.window.m_undoStack.isClean = false := by
  unfold Session.positionDiffers QUndoStack.isClean
  simp

/-- The slot of `cleanChanged` keeps the flag raised while the stack is not
clean. -/
theorem stackChanged_modified (s : Session) (w : CMainWindow)
    (h : s.positionDiffers → s.m_modified = true) :
    (s.stackChanged w).positionDiffers → (s.stackChanged w).m_modified = true := by
  rw [positionDiffers_iff] at h ⊢
  rw [stackChanged_window]
  intro hw
  unfold Session.stackChanged Session.onCleanChanged
  rw [hw]
  cases hs : s.window.m_undoStack.isClean with
  | false =>
    have := h hs
    simp [this]
  | true =>
    cases hm : s.m_modified <;> simp [hm]

/-- The slot of `cleanChanged` never lowers the flag. -/
theorem stackChanged_keeps_modified (s : Session) (w : CMainWindow)
    (h : s.m_modified = true) : (s.stackChanged w).m_modified = true := by
  unfold Session.stackChanged Session.onCleanChanged
  split
  · split <;> simp [h]
  · exact h

theorem load_modified (s s2 : Session) (doc : Option QJsonObject)
    (h : s.positionDiffers → s.m_modified = true)
    (hl : Session.onOpenMap.load s doc = some s2) :
    s2.positionDiffers → s2.m_modified = true := by
  unfold Session.onOpenMap.load at hl
  cases doc with
  | none =>
    simp only at hl
    injection hl with hl
    rw [← hl]
    exact h
  | some obj =>
    simp only at hl
    cases hf : s.window.m_map.fromJson obj with
    | none => rw [hf] at hl; cases hl
    | some r =>
      obtain ⟨flag, map⟩ := r
      rw [hf] at hl
      cases flag with
      | false =>
        simp only at hl
        injection hl with hl
        rw [← hl]
        exact h
      | true =>
        simp only at hl
        injection hl with hl
        rw [← hl, positionDiffers_iff]
        simp only [stackChanged_window]
        intro hc
        simp [QUndoStack.isClean, QUndoStack.clear] at hc

theorem onSaveMap_modified (s : Session) (written : Bool)
    (h : s.positionDiffers → s.m_modified = true) :
    (s.onSaveMap written).2.positionDiffers → (s.onSaveMap written).2.m_modified = true := by
  unfold Session.onSaveMap
  cases written with
  | false => exact h
  | true =>
    simp only [if_true]
    rw [positionDiffers_iff]
    simp only [stackChanged_window]
    intro hc
    simp [QUndoStack.isClean, QUndoStack.setClean] at hc

/-- What `onMapPreferences` leaves when the sizes differ from the grid's: the
flag raised and the history empty at its clean position. -/
theorem onMapPreferences_changed (s s3 : Session) (newWidth newHeight : Int)
    (hne : newWidth ≠ s.window.m_map.width ∨ newHeight ≠ s.window.m_map.height)
    (hs : s.onMapPreferences newWidth newHeight = some s3) :
    s3.m_modified = true ∧ ¬ s3.positionDiffers := by
  unfold Session.onMapPreferences at hs
  rw [if_pos hne] at hs
  cases hr : s.window.m_map.resize newWidth newHeight 0 with
  | none => rw [hr] at hs; cases hs
  | some map =>
    rw [hr] at hs
    simp only at hs
    injection hs with hs
    rw [← hs]
    refine ⟨rfl, ?_⟩
    rw [positionDiffers_iff]
    simp only [stackChanged_window]
    simp [QUndoStack.isClean, QUndoStack.clear]

/-- The slot `onMapPreferences` has a result whenever the buffer size of the
resize fits an `int`. -/
theorem onMapPreferences_returns (s : Session) (newWidth newHeight : Int)
    (hfit : max 0 newWidth * max 0 newHeight ≤ INT_MAX) :
    ∃ s3 : Session, s.onMapPreferences newWidth newHeight = some s3 := by
  unfold Session.onMapPreferences
  split
  · rw [resize_eq_some _ _ _ _ hfit]
    exact ⟨_, rfl⟩
  · exact ⟨s, rfl⟩

theorem step_modified (s s2 : Session) (op : Operation)
    (h : s.positionDiffers → s.m_modified = true) (hs : s.step op = some s2) :
    s2.positionDiffers → s2.m_modified = true := by
  cases op with
  | paint i =>
    injection hs with hs
    rw [← hs]
    exact stackChanged_modified s _ h
  | undo =>
    injection hs with hs
    rw [← hs]
    exact stackChanged_modified s _ h
  | redo =>
    injection hs with hs
    rw [← hs]
    exact stackChanged_modified s _ h
  | save written =>
    injection hs with hs
    rw [← hs]
    exact onSaveMap_modified s written h
  | resize newWidth newHeight =>
    simp only [Session.step] at hs
    by_cases hne : newWidth ≠ s.window.m_map.width ∨ newHeight ≠ s.window.m_map.height
    · intro _
      exact (onMapPreferences_changed s s2 newWidth newHeight hne hs).1
    · unfold Session.onMapPreferences at hs
      rw [if_neg hne] at hs
      injection hs with hs
      rw [← hs]
      exact h
  | newMap yes =>
    injection hs with hs
    rw [← hs]
    unfold Session.onNewMap
    split
    · exact h
    · rw [positionDiffers_iff]
      simp only [stackChanged_window]
      intro hc
      simp [QUndoStack.isClean, QUndoStack.clear] at hc
  | openMap answer written doc =>
    simp only [Session.step, Session.onOpenMap] at hs
    split at hs
    · cases answer with
      | Save =>
        simp only at hs
        split at hs
        · injection hs with hs
          rw [← hs]
          exact h
        · exact load_modified _ s2 doc (onSaveMap_modified s written h) hs
      | Discard => exact load_modified s s2 doc h hs
      | Cancel =>
        simp only at hs
        injection hs with hs
        rw [← hs]
        exact h
    · exact load_modified s s2 doc h hs

/-- C11 as stated fails: from the window as constructed, (1) painting `1` at
`(0, 0)` and undoing it, and (2) resizing the map to 3 x 3, both end with the
undo-stack position `0` equal to the clean marker `0` and the modified flag
`true`. -/
theorem modified_although_position_is_clean :
    (Session.initial.run [Operation.paint ⟨TOOL_PAINT, 0, 0, 1⟩, Operation.undo]).map
        (fun s => (s.m_modified, s.window.m_undoStack.undoStack.length,
          s.window.m_undoStack.cleanMark))
      = some (true, 0, 0) ∧
    (Session.initial.run [Operation.resize 3 3]).map
        (fun s => (s.m_modified, s.window.m_undoStack.undoStack.length,
          s.window.m_undoStack.cleanMark))
      = some (true, 0, 0) := by
  constructor <;> decide

/-- C11 (amended): after every sequence of session operations (paint, fill,
undo, redo, save, resize, new map, load) the modified flag is true whenever
the current undo-stack position differs from the clean marker.  The flag is
not lowered by undo, redo, paint or fill; it is false right after a written
save, after a confirmed new map and after a load that returns `true`, and
true right after a resize that changes the dimensions (which has a result
whenever its buffer size fits an `int`). -/
theorem modified_when_position_differs (s s2 : Session) (ops : List Operation)
    (h : s.positionDiffers → s.m_modified = true) (hrun : s.run ops = some s2) :
    (s2.positionDiffers → s2.m_modified = true) ∧
    (∀ i, s2.m_modified = true →
      (s2.intent i).m_modified = true ∧ s2.undo.m_modified = true ∧
      s2.redo.m_modified = true) ∧
    (s2.onSaveMap true).2.m_modified = false ∧
    ¬ (s2.onSaveMap true).2.positionDiffers ∧
    (s2.onNewMap true).m_modified = false ∧
    (∀ newWidth newHeight : Int,
      (newWidth ≠ s2.window.m_map.width ∨ newHeight ≠ s2.window.m_map.height) →
      (∀ s3 : Session, s2.onMapPreferences newWidth newHeight = some s3 →
        s3.m_modified = true ∧ ¬ s3.positionDiffers) ∧
      (max 0 newWidth * max 0 newHeight ≤ INT_MAX →
        ∃ s3 : Session, s2.onMapPreferences newWidth newHeight = some s3 ∧
          s3.m_modified = true ∧ ¬ s3.positionDiffers)) ∧
    (∀ obj map s3, s2.window.m_map.fromJson obj = some (true, map) →
      Session.onOpenMap.load s2 (some obj) = some s3 → s3.m_modified = false) := by
  have hinv : s2.positionDiffers → s2.m_modified = true := by
    induction ops generalizing s with
    | nil =>
      injection hrun with hrun
      rw [← hrun]
      exact h
    | cons op rest ih =>
      unfold Session.run at hrun
      cases hstep : s.step op with
      | none => rw [hstep] at hrun; cases hrun
      | some s1 =>
        rw [hstep] at hrun
        exact ih s1 (step_modified s s1 op h hstep) hrun
  refine ⟨hinv, ?_, ?_, ?_, ?_, ?_, ?_⟩
  · intro i hm
    exact ⟨stackChanged_keeps_modified s2 _ hm, stackChanged_keeps_modified s2 _ hm,
      stackChanged_keeps_modified s2 _ hm⟩
  · rfl
  · rw [positionDiffers_iff]
    unfold Session.onSaveMap
    simp only [if_true, stackChanged_window]
    simp [QUndoStack.isClean, QUndoStack.setClean]
  · unfold Session.onNewMap
    simp
  · intro newWidth newHeight hne
    refine ⟨fun s3 hs => onMapPreferences_changed s2 s3 newWidth newHeight hne hs, ?_⟩
    intro hfit
    obtain ⟨s3, hs⟩ := onMapPreferences_returns s2 newWidth newHeight hfit
    exact ⟨s3, hs, onMapPreferences_changed s2 s3 newWidth newHeight hne hs⟩
  · intro obj map s3 hf hl
    unfold Session.onOpenMap.load at hl
    simp only [hf] at hl
    injection hl with hl
    rw [← hl]

/-- C11 (amended) on a concrete run: on the 2 x 2 grid `[7,8,9,10]` with an
empty history, painting `42` at `(1, 0)` and undoing it leaves the flag true
at the clean position; a run from the constructed window (load a 2 x 2 map,
paint, save, paint, undo twice) ends at position `0` with marker `1` and the
flag true. -/
theorem modified_when_position_differs_witness :
    (Session.mk (CMainWindow.fresh gridTwoByTwo) false).run
        [Operation.paint ⟨TOOL_PAINT, 1, 0, 42⟩, Operation.undo]
      = some (Session.mk
          { m_map := gridTwoByTwo,
            m_undoStack :=
              { undoStack := [], redoStack := [Command.setTile ⟨1, 0, 8, 42⟩], cleanMark := 0 } }
          true) ∧
    (Session.initial.run
        [Operation.openMap Answer.Discard false (some docZero2),
          Operation.paint ⟨TOOL_PAINT, 0, 0, 1⟩, Operation.save true,
          Operation.paint ⟨TOOL_PAINT, 1, 1, 2⟩, Operation.undo, Operation.undo]).map
        (fun s => (s.m_modified, s.window.m_undoStack.undoStack.length,
          s.window.m_undoStack.cleanMark))
      = some (true, 0, 1) ∧
    (Session.mk
        { m_map := gridTwoByTwo,
          m_undoStack :=
            { undoStack := [], redoStack := [Command.setTile ⟨1, 0, 8, 42⟩], cleanMark := 0 } }
        true).redo.m_modified = true :=
  ⟨by decide, by decide,
    (((modified_when_position_differs (Session.mk (CMainWindow.fresh gridTwoByTwo) false)
      (Session.mk
        { m_map := gridTwoByTwo,
          m_undoStack :=
            { undoStack := [], redoStack := [Command.setTile ⟨1, 0, 8, 42⟩], cleanMark := 0 } }
        true)
      [Operation.paint ⟨TOOL_PAINT, 1, 0, 42⟩, Operation.undo]
      (fun hp => absurd rfl hp) (by decide)).2.1 ⟨TOOL_PAINT, 0, 0, 0⟩ rfl).2.2)⟩

/-! ## C21, C23: the loop of `collectFillTiles` on any start cell -/

/-- C21: for every grid, every target value and every start cell `(x0, y0)`
outside `[0,width) x [0,height)`, `collectFillTiles(x0, y0, target)` returns
the empty list: the loop pops the start cell, skips it, and ends. -/
theorem collectFillTiles_outside_empty (g : CMap) (x0 y0 : Int) (target : Nat)
    (hout : x0 < 0 ∨ y0 < 0 ∨ x0 ≥ g.width ∨ y0 ≥ g.height) :
    CMainView.collectFillTiles (some g) x0 y0 target = [] ∧
    (∀ fuel, 1 ≤ fuel →
      CMainView.collectFillTiles.loop g target fuel [(x0, y0)] [] [] = some []) := by
  have hv := (outside_iff g x0 y0).mp hout
  have hloop : ∀ fuel, 1 ≤ fuel →
      CMainView.collectFillTiles.loop g target fuel [(x0, y0)] [] [] = some [] := by
    intro fuel hf
    obtain ⟨k, rfl⟩ : ∃ k, fuel = k + 1 := ⟨fuel - 1, by omega⟩
    rw [loop_skip g target k (x0, y0) [] [] [] (Or.inl (fun hr => hv hr.1)), loop_nil]
  refine ⟨?_, hloop⟩
  have h1 := collectFillTiles_returns g x0 y0 target _ (le_refl _)
  rw [hloop _ (by unfold CMainView.collectFillTiles.bound; omega)] at h1
  injection h1 with h1
  exact h1.symm

/-- C21 on the 2 x 2 grid `[7,8,9,10]` with the start cell `(2, 0)`. -/
theorem collectFillTiles_outside_empty_witness :
    ((2 : Int) < 0 ∨ (0 : Int) < 0 ∨ (2 : Int) ≥ gridTwoByTwo.width
      ∨ (0 : Int) ≥ gridTwoByTwo.height) ∧
    CMainView.collectFillTiles (some gridTwoByTwo) 2 0 0 = [] :=
  ⟨by decide, (collectFillTiles_outside_empty gridTwoByTwo 2 0 0 (by decide)).1⟩

/-- C23: for every grid, every start cell and every target value the
work-stack loop of `collectFillTiles` terminates: from the start cell it
returns within `4 * width * height + 1` iterations, and from any state of the
stack and the visited set it returns within the size of the stack plus four
times the number of cells not yet visited.  Each iteration lowers that
number: it pops one cell, and pushes four only when it marks a new cell. -/
theorem collectFillTiles_loop_terminates (g : CMap) (x y : Int) (target : Nat) :
    (∃ r, ∀ fuel, CMainView.collectFillTiles.bound g ≤ fuel →
      CMainView.collectFillTiles.loop g target fuel [(x, y)] [] [] = some r) ∧
    (∀ stack visited result : List (Int × Int), ∃ r, ∀ fuel,
      stack.length + 4 * g.unvisited visited ≤ fuel →
      CMainView.collectFillTiles.loop g target fuel stack visited result = some r) ∧
    (∀ (c : Int × Int) (visited : List (Int × Int)),
      g.isValidPosition c.1 c.2 = true → c ∉ visited →
      g.unvisited (c :: visited) < g.unvisited visited) := by
  refine ⟨⟨_, collectFillTiles_returns g x y target⟩, ?_, ?_⟩
  · intro stack visited result
    obtain ⟨r, hr⟩ := loop_returns g target _ stack visited result (le_refl _)
    exact ⟨r, fun fuel hf => loop_more_fuel g target _ stack visited result r hr fuel hf⟩
  · intro c visited hv hc
    exact unvisited_cons_lt g c visited hv hc


/-! ## C22: the writes of the copy loop -/

/-- For a document that passes the validation and has a non-negative width or
height, the buffer after `resize` is as long as the `tiles` array, so every
write of the copy loop is inside it. -/
theorem writesInside_of_nonneg (g : CMap) (obj : QJsonObject)
    (hp : CMap.fromJson.passes obj)
    (hs : 0 ≤ (obj.value "width").toInt ∨ 0 ≤ (obj.value "height").toInt) :
    CMap.fromJson.writesInside g obj := by
  obtain ⟨_, _, _, ho⟩ := hp
  obtain ⟨hwh, _, _⟩ := intMul_eq_some _ _ _ ho
  intro resized hr i hi
  rw [((resize_eq_some_iff g resized _ _ 0).mp hr).2, build_length]
  generalize (obj.value "width").toInt = w at *
  generalize (obj.value "height").toInt = ht at *
  generalize (obj.value "tiles").toArray.length = n at *
  rcases le_or_lt 0 w with h1 | h1 <;> rcases le_or_lt 0 ht with h2 | h2
  · rw [max_eq_right h1, max_eq_right h2, ← hwh]
    simpa using hi
  · have : w * ht ≤ 0 := mul_nonpos_of_nonneg_of_nonpos h1 (le_of_lt h2)
    omega
  · have : w * ht ≤ 0 := mul_nonpos_of_nonpos_of_nonneg (le_of_lt h1) h2
    omega
  · omega

/-- For a document that passes the validation with a negative width and a
negative height, the first write of the copy loop is outside the buffer. -/
theorem not_writesInside_of_neg (g : CMap) (obj : QJsonObject)
    (hp : CMap.fromJson.passes obj)
    (hs : (obj.value "width").toInt < 0 ∧ (obj.value "height").toInt < 0) :
    ¬ CMap.fromJson.writesInside g obj := by
  obtain ⟨_, _, _, ho⟩ := hp
  obtain ⟨hwh, _, _⟩ := intMul_eq_some _ _ _ ho
  intro hin
  have hpos : 0 < (obj.value "width").toInt * (obj.value "height").toInt :=
    mul_pos_of_neg_of_neg hs.1 hs.2
  have h0 : 0 < (obj.value "tiles").toArray.length := by omega
  have := hin _ (resize_of_intMul g _ _ _ 0 ho) 0 h0
  rw [build_length, max_eq_left (le_of_lt hs.1)] at this
  simp at this

/-- C22, evaluated on the code: the document
`{"width":-2,"height":-3,"tiles":[0,0,0,0,0,0]}` passes the validation of
`CMap::fromJson` (the keys are present and `6 = (-2) * (-3)`), the buffer that
`resize(-2, -3)` leaves has size `0`, and the copy loop writes the indices
`0..5`: already the index `0` is not below the size of the buffer. -/
theorem fromJson_copy_writes_outside_buffer :
    CMap.fromJson.passes docNegativeDimensions ∧
    (docNegativeDimensions.value "tiles").toArray.length = 6 ∧
    gridTwoByTwo.resize (docNegativeDimensions.value "width").toInt
      (docNegativeDimensions.value "height").toInt 0 = some (CMap.mk 0 0 []) ∧
    (CMap.mk 0 0 []).m_tiles.length = 0 ∧
    ¬ CMap.fromJson.writesInside gridTwoByTwo docNegativeDimensions ∧
    CMap.fromJson.copy (docNegativeDimensions.value "tiles").toArray 0
      (CMap.mk 0 0 []).m_tiles = none := by
  refine ⟨by decide, by decide, by decide, rfl, ?_, by decide⟩
  exact not_writesInside_of_neg gridTwoByTwo docNegativeDimensions (by decide) (by decide)

/-! ## C24: the start cell is the first element -/

/-- What the loop returns begins with the result it started from. -/
theorem loop_result_prefix (g : CMap) (target : Nat) :
    ∀ (fuel : Nat) (stack visited result r : List (Int × Int)),
      CMainView.collectFillTiles.loop g target fuel stack visited result = some r →
      ∃ t, r = result ++ t := by
  intro fuel
  induction fuel with
  | zero =>
    intro stack visited result r hrun
    cases stack with
    | nil =>
      rw [loop_nil] at hrun
      injection hrun with hrun
      exact ⟨[], by rw [← hrun]; simp⟩
    | cons c rest => simp [CMainView.collectFillTiles.loop] at hrun
  | succ fuel ih =>
    intro stack visited result r hrun
    cases stack with
    | nil =>
      rw [loop_nil] at hrun
      injection hrun with hrun
      exact ⟨[], by rw [← hrun]; simp⟩
    | cons c rest =>
      by_cases hskip : ¬ InRegion g target c ∨ c ∈ visited
      · rw [loop_skip g target fuel c rest visited result hskip] at hrun
        exact ih rest visited result r hrun
      · rw [not_or, not_not] at hskip
        obtain ⟨hreg, hvis⟩ := hskip
        rw [loop_visit g target fuel c rest visited result hreg hvis] at hrun
        obtain ⟨t, ht⟩ := ih _ _ _ r hrun
        exact ⟨c :: t, by rw [ht]; simp⟩

theorem collectFillTiles_starts_with_seed (g : CMap) (x y : Int)
    (hv : g.isValidPosition x y = true) :
    ∃ t, CMainView.collectFillTiles (some g) x y (g.tileAt x y) = (x, y) :: t := by
  have hrun := collectFillTiles_returns g x y (g.tileAt x y) _ (le_refl _)
  have hb : CMainView.collectFillTiles.bound g
      = (CMainView.collectFillTiles.bound g - 1) + 1 := by
    unfold CMainView.collectFillTiles.bound
    omega
  rw [hb, loop_visit g (g.tileAt x y) _ (x, y) [] [] [] ⟨hv, rfl⟩ (by simp)] at hrun
  obtain ⟨t, ht⟩ := loop_result_prefix g _ _ _ _ _ _ hrun
  exact ⟨t, by rw [ht]; rfl⟩

/-- C24: for every grid and every in-bounds `(x, y)`,
`collectFillTiles(x, y, tileAt(x, y))` returns a non-empty list whose first
element is `(x, y)`; hence a fill intent at an in-bounds cell whose value
differs from the new value emits `fillApplied`, and its slot pushes one
`FillCommand` built from that list. -/
theorem collectFillTiles_first_is_seed (s : CMainWindow) (x y : Int)
    (hv : s.m_map.isValidPosition x y = true) :
    CMainView.collectFillTiles (some s.m_map) x y (s.m_map.tileAt x y) ≠ [] ∧
    (CMainView.collectFillTiles (some s.m_map) x y (s.m_map.tileAt x y)).head? = some (x, y) ∧
    (∀ tileValue : Int, toUInt32 tileValue ≠ s.m_map.tileAt x y →
      CMainView.paintTile (some s.m_map) TOOL_FILL x y tileValue
        = some (Signal.fillApplied
            (CMainView.collectFillTiles (some s.m_map) x y (s.m_map.tileAt x y))
            (toUInt32 tileValue)) ∧
      s.intent ⟨TOOL_FILL, x, y, tileValue⟩
        = s.push (Command.fill (FillCommand.new s.m_map
            (CMainView.collectFillTiles (some s.m_map) x y (s.m_map.tileAt x y))
            (toUInt32 tileValue))) ∧
      (s.intent ⟨TOOL_FILL, x, y, tileValue⟩).count = s.count + 1) := by
  obtain ⟨t, ht⟩ := collectFillTiles_starts_with_seed s.m_map x y hv
  refine ⟨by rw [ht]; exact List.cons_ne_nil _ _, by rw [ht]; rfl, ?_⟩
  intro tileValue hne
  obtain ⟨hx0, hy0, hxw, hyh⟩ := (isValidPosition_iff s.m_map x y).mp hv
  have hsignal : CMainView.paintTile (some s.m_map) TOOL_FILL x y tileValue
      = some (Signal.fillApplied
          (CMainView.collectFillTiles (some s.m_map) x y (s.m_map.tileAt x y))
          (toUInt32 tileValue)) := by
    unfold CMainView.paintTile
    simp only [CMap.width, CMap.height]
    rw [if_pos ⟨hx0, hxw, hy0, hyh⟩]
    simp only [if_true, if_pos (Ne.symm hne)]
    rw [ht]
    rfl
  have hi : s.intent ⟨TOOL_FILL, x, y, tileValue⟩
      = s.push (Command.fill (FillCommand.new s.m_map
          (CMainView.collectFillTiles (some s.m_map) x y (s.m_map.tileAt x y))
          (toUInt32 tileValue))) := by
    unfold CMainWindow.intent
    simp only
    rw [hsignal]
    rfl
  refine ⟨hsignal, hi, ?_⟩
  rw [hi]
  simp [CMainWindow.count, CMainWindow.push]

/-- C24 on the fill scenario grid `[1,1,2,1]` and the cell `(1, 1)`. -/
theorem collectFillTiles_first_is_seed_witness :
    gridFillScenario.isValidPosition 1 1 = true ∧
    CMainView.collectFillTiles (some gridFillScenario) 1 1 (gridFillScenario.tileAt 1 1)
      = [(1, 1), (1, 0), (0, 0)] ∧
    (CMainView.collectFillTiles (some (CMainWindow.fresh gridFillScenario).m_map) 1 1
      ((CMainWindow.fresh gridFillScenario).m_map.tileAt 1 1)).head? = some (1, 1) :=
  ⟨by decide, by decide,
    (collectFillTiles_first_is_seed (CMainWindow.fresh gridFillScenario) 1 1
      (by decide)).2.1⟩


/-! ## C25: resize to the same size -/

/-- The buffer after `resize(width(), height(), fill)` on a grid that
satisfies the invariant is the buffer before. -/
theorem build_same_tiles (g : CMap) (fill : Nat) (hinv : g.Invariant) :
    (CMap.resize.build g g.m_width g.m_height fill).m_tiles = g.m_tiles := by
  obtain ⟨hw0, hh0, hlen⟩ := hinv
  obtain ⟨wn, hwn⟩ := Int.eq_ofNat_of_zero_le hw0
  obtain ⟨hn, hhn⟩ := Int.eq_ofNat_of_zero_le hh0
  have hlenN : g.m_tiles.length = wn * hn := by
    rw [hwn, hhn] at hlen
    exact_mod_cast hlen
  rw [build_tiles_eq]
  rw [hwn, hhn]
  have e1 : max (0 : Int) (wn : Int) = (wn : Int) := max_eq_right (Int.ofNat_nonneg wn)
  have e2 : max (0 : Int) (hn : Int) = (hn : Int) := max_eq_right (Int.ofNat_nonneg hn)
  rw [e1, e2, min_self, min_self, Int.toNat_ofNat, Int.toNat_ofNat]
  have hix : ∀ t : Nat × Nat,
      ((t.2 : Int) * (wn : Int) + (t.1 : Int)).toNat = t.2 * wn + t.1 := by
    intro t
    have : ((t.2 : Int) * (wn : Int) + (t.1 : Int)) = ((t.2 * wn + t.1 : Nat) : Int) := by
      push_cast
      rfl
    rw [this, Int.toNat_ofNat]
  simp only [hix]
  have hrep : ((wn : Int) * (hn : Int)).toNat = wn * hn := by
    have : ((wn : Int) * (hn : Int)) = ((wn * hn : Nat) : Int) := by push_cast; rfl
    rw [this, Int.toNat_ofNat]
  rw [hrep]
  apply List.ext_getElem?
  intro k
  by_cases hk : k < wn * hn
  · have hwpos : 0 < wn := by
      rcases Nat.eq_zero_or_pos wn with h | h
      · rw [h] at hk; simp at hk
      · exact h
    have hmem : (k % wn, k / wn) ∈ CMap.resize.positions wn hn := by
      rw [mem_positions]
      refine ⟨Nat.mod_lt _ hwpos, ?_⟩
      simp only
      rw [Nat.div_lt_iff_lt_mul hwpos, Nat.mul_comm]
      exact hk
    have hkeq : (k / wn) * wn + k % wn = k := Nat.div_add_mod' k wn
    have hget := getElem?_foldl_set_at_mem
      (fun (t : Nat × Nat) => t.2 * wn + t.1)
      (fun (t : Nat × Nat) => g.m_tiles.getD (t.2 * wn + t.1) 0)
      (CMap.resize.positions wn hn)
      (fun t _ u _ he => by simp only [he])
      (List.replicate (wn * hn) fill) (k % wn, k / wn) hmem
      (by simp only [List.length_replicate, hkeq]; exact hk)
    simp only [hkeq] at hget
    rw [hget, List.getD_eq_getElem?_getD, List.getElem?_eq_getElem (by rw [hlenN]; exact hk)]
    rfl
  · rw [List.getElem?_eq_none, List.getElem?_eq_none]
    · rw [hlenN]; omega
    · rw [length_foldl_set_at, List.length_replicate]; omega

/-- The body of `CMap::resize`, run with the grid's own dimensions on a grid
that satisfies the invariant, builds the grid itself. -/
theorem build_same_size (g : CMap) (fill : Nat) (hinv : g.Invariant) :
    CMap.resize.build g g.width g.height fill = g := by
  have hw : max 0 g.m_width = g.m_width := max_eq_right hinv.1
  have hh : max 0 g.m_height = g.m_height := max_eq_right hinv.2.1
  have h1 : (CMap.resize.build g g.m_width g.m_height fill).m_width = g.m_width := by
    rw [build_width, hw]
  have hm2 : (CMap.resize.build g g.m_width g.m_height fill).m_height = g.m_height := by
    rw [build_height, hh]
  have h3 := build_same_tiles g fill hinv
  unfold CMap.width CMap.height
  cases hg : CMap.resize.build g g.m_width g.m_height fill with
  | mk a b c =>
    rw [hg] at h1 hm2 h3
    simp only at h1 hm2 h3
    cases g with
    | mk a2 b2 c2 =>
      simp only at h1 hm2 h3
      rw [h1, hm2, h3]

/-- C25: for every grid satisfying the invariant (`tiles.length ==
width*height`, with non-negative width and height) and every fill value,
`resize(width(), height(), fill)` returns the grid as it was: width, height
and every cell value are unchanged, whatever fill is given.  The call has
this result whenever `width * height` fits an `int`, which is so for every
reachable grid; the grid its body builds is the grid itself in any case. -/
theorem resize_same_size_identity (g : CMap) (fill : Nat) (hinv : g.Invariant) :
    (∀ g2 : CMap, g.resize g.width g.height fill = some g2 →
      g2 = g ∧ g2.width = g.width ∧ g2.height = g.height ∧
      ∀ x y, g2.tileAt x y = g.tileAt x y) ∧
    (g.width * g.height ≤ INT_MAX → g.resize g.width g.height fill = some g) ∧
    (g.Reachable → g.resize g.width g.height fill = some g) ∧
    CMap.resize.build g g.width g.height fill = g ∧
    (CMap.resize.build g g.width g.height fill).width = g.width ∧
    (CMap.resize.build g g.width g.height fill).height = g.height ∧
    (∀ x y, (CMap.resize.build g g.width g.height fill).tileAt x y = g.tileAt x y) := by
  have hw : max 0 g.width = g.width := max_eq_right hinv.1
  have hh : max 0 g.height = g.height := max_eq_right hinv.2.1
  have heq := build_same_size g fill hinv
  have hfit : g.width * g.height ≤ INT_MAX → g.resize g.width g.height fill = some g := by
    intro hle
    have hr := resize_eq_some g g.width g.height fill (by rw [hw, hh]; exact hle)
    rw [heq] at hr
    exact hr
  refine ⟨?_, hfit, ?_, heq, ?_⟩
  · intro g2 hr
    have hg := ((resize_eq_some_iff g g2 _ _ fill).mp hr).2
    rw [heq] at hg
    rw [hg]
    exact ⟨rfl, rfl, rfl, fun _ _ => rfl⟩
  · intro hreach
    exact hfit (reachable_grid_fits g hreach).2
  · rw [heq]
    exact ⟨rfl, rfl, fun _ _ => rfl⟩

/-- C25 on the 2 x 2 grid `[7,8,9,10]` with the fill value `5`. -/
theorem resize_same_size_identity_witness :
    gridTwoByTwo.Invariant ∧
    gridTwoByTwo.resize gridTwoByTwo.width gridTwoByTwo.height 5 = some gridTwoByTwo :=
  ⟨by decide, (resize_same_size_identity gridTwoByTwo 5 (by decide)).2.1 (by decide)⟩

end MapEditor
